import Mathlib

/-!
Verification development for the sim-exchange repository: a shallow
embedding of the discrete-event kernel (virtual clock, time-priority
queue, latency model, broadcast), the order book (price-time priority
matching, limit/market/cancel/modify, snapshots) and the exchange agent
(validation, response protocol, market-data publication), together with
theorems settling the specification claims.

Numbers: the TypeScript source uses JS numbers; every quantity involved
(prices in cents, quantities, nanosecond timestamps, agent ids) is an
integer in the source and the spec, so they are embedded as `Int`.
Loops are embedded as fuel-indexed structural recursions; each call site
passes fuel that provably dominates the number of iterations of the
source loop, so the embedded function computes exactly what the loop does.
-/

namespace SimEx

/-- Order side, `Side` in `src/util/types`. -/
inductive Side
  | BUY
  | SELL
deriving DecidableEq

/-- The opposite side (used by the exchange agent for `makerSide`). -/
def Side.flip : Side → Side
  | Side.BUY => Side.SELL
  | Side.SELL => Side.BUY

/-- The `LimitOrder` record from `src/util/types`. -/
structure LimitOrder where
  id : String
  agent : Int
  symbol : String
  side : Side
  price : Int
  qty : Int
  ts : Int
deriving DecidableEq

/-- One execution produced by `OrderBook.match` (limit crossing). -/
structure Exec where
  price : Int
  qty : Int
  maker : Int
  taker : Int
  makerOrderId : String
  takerOrderId : String
deriving DecidableEq

/-- One execution produced by `OrderBook.placeMarket`. -/
structure MExec where
  price : Int
  qty : Int
  maker : Int
  makerOrderId : String
deriving DecidableEq

/-- An L2 aggregated level `(price, qty)`. -/
def L2Level : Type := Int × Int
deriving instance DecidableEq for L2Level

/-- Insert `x` into `l` in front of the first element that `x` strictly
precedes; elements that tie keep their earlier position.  Folding this
over a list reproduces a stable comparator sort, which is what
JS `Array.prototype.sort` performs in `sortBooks`. -/
def insertBefore {α : Type} (before : α → α → Bool) (x : α) : List α → List α
  | [] => [x]
  | y :: ys => if before x y then x :: y :: ys else y :: insertBefore before x ys

/-- Stable sort by a strict "comes before" predicate (insertion sort). -/
def stableSortBy {α : Type} (before : α → α → Bool) (l : List α) : List α :=
  l.foldl (fun acc x => insertBefore before x acc) []

/-- Bid comparator from `sortBooks`: `(a, b) => b.price - a.price || a.ts - b.ts`,
descending price then ascending `ts`; `true` when `a` strictly precedes `b`. -/
def bidBefore (a b : LimitOrder) : Bool :=
  decide (b.price < a.price) || (decide (a.price = b.price) && decide (a.ts < b.ts))

/-- Ask comparator from `sortBooks`: `(a, b) => a.price - b.price || a.ts - b.ts`,
ascending price then ascending `ts`. -/
def askBefore (a b : LimitOrder) : Bool :=
  decide (a.price < b.price) || (decide (a.price = b.price) && decide (a.ts < b.ts))

/-- Order book state (class `OrderBook`). -/
structure OrderBook where
  symbol : String
  bids : List LimitOrder
  asks : List LimitOrder
  last : Option Int
deriving DecidableEq

/-- The `OrderBook.sortBooks`: stable-sorts both sides. -/
def OrderBook.sortBooks (b : OrderBook) : OrderBook :=
  { b with bids := stableSortBy bidBefore b.bids, asks := stableSortBy askBefore b.asks }

/-- Result of the `match` loop: executions and the final book components. -/
structure MatchResult where
  execs : List Exec
  bids : List LimitOrder
  asks : List LimitOrder
  last : Option Int
deriving DecidableEq

/-- The body of `OrderBook.match` (the source name `match` is a Lean keyword):
`while (bids.length && asks.length)`, exit when `bid.price < ask.price`;
price is the `ts`-earlier top's price, qty is the min, both tops are
decremented, `last` is set, and a top whose qty reached 0 is shifted.
Each iteration removes at least one order, so fuel
`bids.length + asks.length` (what `placeLimit` passes) never runs out. -/
def matchLoop : Nat → List LimitOrder → List LimitOrder → Option Int → MatchResult
  | 0, bids, asks, last => ⟨[], bids, asks, last⟩
  | _ + 1, [], asks, last => ⟨[], [], asks, last⟩
  | _ + 1, bid :: bs, [], last => ⟨[], bid :: bs, [], last⟩
  | fuel + 1, bid :: bs, ask :: as, last =>
    if bid.price < ask.price then ⟨[], bid :: bs, ask :: as, last⟩
    else
      let price := if bid.ts ≤ ask.ts then bid.price else ask.price
      let q := min bid.qty ask.qty
      let bids' := if bid.qty - q = 0 then bs else { bid with qty := bid.qty - q } :: bs
      let asks' := if ask.qty - q = 0 then as else { ask with qty := ask.qty - q } :: as
      let r := matchLoop fuel bids' asks' (some price)
      ⟨⟨price, q, ask.agent, bid.agent, ask.id, bid.id⟩ :: r.execs, r.bids, r.asks, r.last⟩

/-- The first half of `placeLimit`: push onto the proper side and `sortBooks`.
This is the book state on which the `match` loop then runs. -/
def OrderBook.insertOrder (b : OrderBook) (o : LimitOrder) : OrderBook :=
  OrderBook.sortBooks
    (if o.side = Side.BUY then { b with bids := b.bids ++ [o] }
     else { b with asks := b.asks ++ [o] })

/-- The `OrderBook.placeLimit`: push onto the proper side, `sortBooks`, then `match`. -/
def OrderBook.placeLimit (b : OrderBook) (o : LimitOrder) : List Exec × OrderBook :=
  let b2 := b.insertOrder o
  let r := matchLoop (b2.bids.length + b2.asks.length) b2.bids b2.asks b2.last
  (r.execs, { b2 with bids := r.bids, asks := r.asks, last := r.last })

/-- Result of the market sweep loop. -/
structure SweepResult where
  execs : List MExec
  book : List LimitOrder
  last : Option Int
  remain : Int
deriving DecidableEq

/-- The `while (remain > 0)` sweep inside `OrderBook.placeMarket`:
break on empty book, consume `min(remain, top.qty)` from the top,
record an execution, set `last`, shift a fully consumed top.
Fuel `book.length + 2` (what `placeMarket` passes) always suffices:
every iteration either shortens the book or zeroes `remain`. -/
def sweepLoop : Nat → List LimitOrder → Int → Option Int → SweepResult
  | 0, book, remain, last => ⟨[], book, last, remain⟩
  | fuel + 1, book, remain, last =>
    if remain ≤ 0 then ⟨[], book, last, remain⟩
    else
      match book with
      | [] => ⟨[], [], last, remain⟩
      | top :: rest =>
        let take := min remain top.qty
        let newQty := top.qty - take
        let book' := if newQty = 0 then rest else { top with qty := newQty } :: rest
        let r := sweepLoop fuel book' (remain - take) (some top.price)
        ⟨⟨top.price, take, top.agent, top.id⟩ :: r.execs, r.book, r.last, r.remain⟩

/-- The `OrderBook.placeMarket(agent, side, qty, ts)`: sweeps the opposite side,
returns `{ filled = qty - remain, execs }` and the mutated book. -/
def OrderBook.placeMarket (b : OrderBook) (_agent : Int) (side : Side) (qty : Int)
    (_ts : Int) : (Int × List MExec) × OrderBook :=
  let book := if side = Side.BUY then b.asks else b.bids
  let r := sweepLoop (book.length + 2) book qty b.last
  let b' :=
    if side = Side.BUY then { b with asks := r.book, last := r.last }
    else { b with bids := r.book, last := r.last }
  ((qty - r.remain, r.execs), b')

/-- Remove the first order with the given id, returning it and the remainder
(`findIndex` + `splice` in `cancel`). -/
def removeFirst (orderId : String) : List LimitOrder → Option (LimitOrder × List LimitOrder)
  | [] => none
  | o :: rest =>
    if o.id = orderId then some (o, rest)
    else
      match removeFirst orderId rest with
      | none => none
      | some (x, l) => some (x, o :: l)

/-- The `OrderBook.cancel`: remove from bids first, else asks; report the former
`(side, price, qty)` or a negative result. -/
def OrderBook.cancel (b : OrderBook) (orderId : String) :
    Option (Side × Int × Int) × OrderBook :=
  match removeFirst orderId b.bids with
  | some (o, bids') => (some (o.side, o.price, o.qty), { b with bids := bids' })
  | none =>
    match removeFirst orderId b.asks with
    | some (o, asks') => (some (o.side, o.price, o.qty), { b with asks := asks' })
    | none => (none, b)

/-- The `MODIFY_ORDER` patch `{ price?, qty? }`. -/
structure Patch where
  price : Option Int
  qty : Option Int
deriving DecidableEq

/-- The mutation `OrderBook.modify` applies to the found order:
`priceChanged` is computed against the original price; `qty` is clamped by
`Math.max(0, qty)` and a zero result removes the order (`none`); otherwise
the price is applied and `ts` is reset to `nowTs` iff the price changed. -/
def applyPatch (o : LimitOrder) (patch : Patch) (nowTs : Int) : Option LimitOrder :=
  let priceChanged : Bool :=
    match patch.price with
    | some p => decide (p ≠ o.price)
    | none => false
  let o1 :=
    match patch.qty with
    | some q => { o with qty := max 0 q }
    | none => o
  if patch.qty.isSome ∧ o1.qty = 0 then none
  else
    let o2 :=
      match patch.price with
      | some p => { o1 with price := p }
      | none => o1
    some (if priceChanged then { o2 with ts := nowTs } else o2)

/-- Apply `applyPatch` to the first order with the given id inside one side;
`none` when the id is absent, otherwise the patched order (or `none` when
removed) and the updated side. -/
def modifyInList (orderId : String) (patch : Patch) (nowTs : Int) :
    List LimitOrder → Option (Option LimitOrder × List LimitOrder)
  | [] => none
  | o :: rest =>
    if o.id = orderId then
      match applyPatch o patch nowTs with
      | none => some (none, rest)
      | some o' => some (some o', o' :: rest)
    else
      match modifyInList orderId patch nowTs rest with
      | none => none
      | some (r, l) => some (r, o :: l)

/-- The `OrderBook.modify(orderId, patch, nowTs)`: search bids first, else asks;
on removal (qty became 0) the source returns early without re-sorting, on
any other successful mutation it re-sorts both sides; unknown id is
reported with a `false` flag. -/
def OrderBook.modify (b : OrderBook) (orderId : String) (patch : Patch) (nowTs : Int) :
    Bool × Option LimitOrder × OrderBook :=
  match modifyInList orderId patch nowTs b.bids with
  | some (none, bids') => (true, none, { b with bids := bids' })
  | some (some o', bids') => (true, some o', OrderBook.sortBooks { b with bids := bids' })
  | none =>
    match modifyInList orderId patch nowTs b.asks with
    | some (none, asks') => (true, none, { b with asks := asks' })
    | some (some o', asks') => (true, some o', OrderBook.sortBooks { b with asks := asks' })
    | none => (false, none, b)

/-- Find a resident order: bids first, then asks (the search order both
`cancel` and `modify` use). -/
def OrderBook.findOrder (b : OrderBook) (orderId : String) : Option LimitOrder :=
  match b.bids.find? (fun x => x.id = orderId) with
  | some o => some o
  | none => b.asks.find? (fun x => x.id = orderId)

/-- Price aggregation step of `snapshot`: a JS `Map` keyed by price keeps
first-insertion order and accumulates quantities. -/
def addLevel (price qty : Int) : List L2Level → List L2Level
  | [] => [(price, qty)]
  | (p, q) :: rest =>
    if p = price then (p, q + qty) :: rest else (p, q) :: addLevel price qty rest

/-- The `(price, qty)` pair comparator for snapshot levels. -/
def levelBefore (asc : Bool) (a b : L2Level) : Bool :=
  if asc then decide (a.1 < b.1) else decide (b.1 < a.1)

/-- One side of `OrderBook.snapshot`: aggregate by price, sort by price
(descending for bids, ascending for asks), truncate to `depth`. -/
def aggSide (side : List LimitOrder) (asc : Bool) (depth : Nat) : List L2Level :=
  let levels := side.foldl (fun acc o => addLevel o.price o.qty acc) []
  (stableSortBy (levelBefore asc) levels).take depth

/-- L2 snapshot `{ bids, asks, last }`. -/
structure Snapshot where
  bids : List L2Level
  asks : List L2Level
  last : Option Int
deriving DecidableEq

/-- The `OrderBook.snapshot(depth)`. -/
def OrderBook.snapshot (b : OrderBook) (depth : Nat) : Snapshot :=
  ⟨aggSide b.bids false depth, aggSide b.asks true depth, b.last⟩

/-- Message categories (`MsgType` enum in `src/messages/types`; the current
enum also carries `ORDER_REJECTED`, which `ExchangeAgent` sends). -/
inductive MsgType
  | WAKEUP
  | LIMIT_ORDER
  | MARKET_ORDER
  | CANCEL_ORDER
  | MODIFY_ORDER
  | QUERY_SPREAD
  | QUERY_LAST
  | MARKET_DATA
  | ORDER_ACCEPTED
  | ORDER_EXECUTED
  | ORDER_CANCELLED
  | ORDER_REJECTED
  | TRADE
  | ORDER_LOG
deriving DecidableEq

/-- Role carried in an `ORDER_EXECUTED` body. -/
inductive Role
  | MAKER
  | TAKER
deriving DecidableEq

/-- Kind-dependent message payloads (the untyped `body` field of the source,
restricted to the shapes the exchange and kernel actually construct). -/
inductive Body
  | nilB
  | limit (o : LimitOrder)
  | market (side : Side) (qty : Int)
  | cancelRef (id : String)
  | modifyRef (id : String) (price : Option Int) (qty : Option Int)
  | accepted (orderId : String) (symbol : Option String) (side : Option Side)
      (price : Option Int) (qty : Option Int) (replaced : Bool)
  | executed (symbol : String) (price : Int) (qty : Int) (role : Role)
      (sideForRecipient : Side) (orderId : Option String)
  | cancelled (orderId : String) (side : Side) (price : Int) (qty : Int)
  | rejected (reason : String) (refType : MsgType)
  | marketData (symbol : String) (snap : Snapshot)
  | spreadReply (symbol : String) (snap : Snapshot)
  | lastReply (symbol : String) (last : Option Int)
  | queryDepth (depth : Option Nat)
deriving DecidableEq

/-- The unit routed by the kernel (`Message` in `src/messages/types`);
`from`/`to`/`at` are Lean keywords, hence `fromId`/`toId`/`atNs`. -/
structure Message where
  fromId : Int
  toId : Int
  type : MsgType
  body : Body
  atNs : Int
deriving DecidableEq

/-- Events emitted on the kernel's pub/sub bus. -/
inductive BusEvent
  | trade (ts : Int) (symbol : String) (price : Int) (qty : Int)
      (maker : Int) (taker : Int) (makerSide : Side)
  | orderLog (ts : Int) (fromId : Int) (toId : Int) (msgType : MsgType) (body : Body)
deriving DecidableEq

/-- One observable step of the exchange handler, in program order:
a point-to-point `this.send`, a synchronous `kernel.emit`, or the
`kernel.broadcast` performed by `publish()`. -/
inductive Action
  | sendTo (recipient : Int) (type : MsgType) (body : Body)
  | emitBus (ev : BusEvent)
  | publishAll (type : MsgType) (body : Body)
deriving DecidableEq

/-- Per-execution actions of the LIMIT_ORDER branch, in the source's program
order: TAKER EXECUTED to the incoming order's agent, MAKER EXECUTED to the
agent recorded as maker in the execution, then the TRADE bus emission. -/
def limitExecActions (exSymbol : String) (t : Int) (o : LimitOrder) (e : Exec) :
    List Action :=
  [Action.sendTo o.agent MsgType.ORDER_EXECUTED
     (Body.executed exSymbol e.price e.qty Role.TAKER o.side (some o.id)),
   Action.sendTo e.maker MsgType.ORDER_EXECUTED
     (Body.executed exSymbol e.price e.qty Role.MAKER o.side.flip (some e.makerOrderId)),
   Action.emitBus (BusEvent.trade t exSymbol e.price e.qty e.maker o.agent o.side.flip)]

/-- Per-execution actions of the MARKET_ORDER branch: TAKER EXECUTED to the
sender, MAKER EXECUTED to the resting maker, then the TRADE bus emission. -/
def marketExecActions (exSymbol : String) (t : Int) (takerId : Int) (side : Side)
    (e : MExec) : List Action :=
  [Action.sendTo takerId MsgType.ORDER_EXECUTED
     (Body.executed exSymbol e.price e.qty Role.TAKER side none),
   Action.sendTo e.maker MsgType.ORDER_EXECUTED
     (Body.executed exSymbol e.price e.qty Role.MAKER side.flip (some e.makerOrderId)),
   Action.emitBus (BusEvent.trade t exSymbol e.price e.qty e.maker takerId side.flip)]

/-- The `ExchangeAgent.receive(t, msg)`: validation, book mutation and the exact
sequence of sends / bus emissions / broadcasts of the source handler.
`exId` is the exchange's own agent id (`this.id`), `exSymbol` its symbol.
The `side` validity checks of the source guard against untyped input and
cannot fire in this typed embedding; all other validation is kept. -/
def ExchangeAgent.receive (exId : Int) (exSymbol : String) (book : OrderBook)
    (t : Int) (m : Message) : OrderBook × List Action :=
  match m.type, m.body with
  | MsgType.LIMIT_ORDER, Body.limit o =>
    if o.symbol ≠ exSymbol then
      (book, [Action.sendTo m.fromId MsgType.ORDER_REJECTED
        (Body.rejected "Symbol mismatch" MsgType.LIMIT_ORDER)])
    else if o.qty ≤ 0 ∨ o.price ≤ 0 then
      (book, [Action.sendTo m.fromId MsgType.ORDER_REJECTED
        (Body.rejected "Non-positive qty or price" MsgType.LIMIT_ORDER)])
    else
      let r := book.placeLimit o
      (r.2,
        Action.sendTo m.fromId MsgType.ORDER_ACCEPTED
          (Body.accepted o.id (some o.symbol) (some o.side) (some o.price) (some o.qty) false)
        :: (r.1.flatMap (limitExecActions exSymbol t o)
          ++ [Action.publishAll MsgType.MARKET_DATA (Body.marketData exSymbol (r.2.snapshot 10))]))
  | MsgType.LIMIT_ORDER, _ =>
    (book, [Action.sendTo m.fromId MsgType.ORDER_REJECTED
      (Body.rejected "Symbol mismatch" MsgType.LIMIT_ORDER)])
  | MsgType.MARKET_ORDER, Body.market side qty =>
    if qty ≤ 0 then
      (book, [Action.sendTo m.fromId MsgType.ORDER_REJECTED
        (Body.rejected "Non-positive qty" MsgType.MARKET_ORDER)])
    else
      let r := book.placeMarket m.fromId side qty t
      let acts :=
        if 0 < r.1.1 then
          r.1.2.flatMap (marketExecActions exSymbol t m.fromId side)
        else
          [Action.sendTo m.fromId MsgType.ORDER_REJECTED
            (Body.rejected "No liquidity" MsgType.MARKET_ORDER)]
      (r.2, acts ++ [Action.publishAll MsgType.MARKET_DATA (Body.marketData exSymbol (r.2.snapshot 10))])
  | MsgType.MARKET_ORDER, _ =>
    (book, [Action.sendTo m.fromId MsgType.ORDER_REJECTED
      (Body.rejected "Invalid side" MsgType.MARKET_ORDER)])
  | MsgType.CANCEL_ORDER, Body.cancelRef id =>
    if id = "" then
      (book, [Action.sendTo m.fromId MsgType.ORDER_REJECTED
        (Body.rejected "Missing order id" MsgType.CANCEL_ORDER)])
    else
      match book.cancel id with
      | (some res, book') =>
        (book',
          [Action.sendTo m.fromId MsgType.ORDER_CANCELLED
             (Body.cancelled id res.1 res.2.1 res.2.2),
           Action.emitBus (BusEvent.orderLog t m.fromId exId MsgType.CANCEL_ORDER (Body.cancelRef id)),
           Action.publishAll MsgType.MARKET_DATA (Body.marketData exSymbol (book'.snapshot 10))])
      | (none, _) =>
        (book, [Action.sendTo m.fromId MsgType.ORDER_REJECTED
          (Body.rejected "Unknown order id" MsgType.CANCEL_ORDER)])
  | MsgType.CANCEL_ORDER, _ =>
    (book, [Action.sendTo m.fromId MsgType.ORDER_REJECTED
      (Body.rejected "Missing order id" MsgType.CANCEL_ORDER)])
  | MsgType.MODIFY_ORDER, Body.modifyRef id price qty =>
    if id = "" then
      (book, [Action.sendTo m.fromId MsgType.ORDER_REJECTED
        (Body.rejected "Missing order id" MsgType.MODIFY_ORDER)])
    else if price.any (fun p => decide (p ≤ 0)) then
      (book, [Action.sendTo m.fromId MsgType.ORDER_REJECTED
        (Body.rejected "Non-positive price" MsgType.MODIFY_ORDER)])
    else if qty.any (fun q => decide (q < 0)) then
      (book, [Action.sendTo m.fromId MsgType.ORDER_REJECTED
        (Body.rejected "Negative qty" MsgType.MODIFY_ORDER)])
    else
      let r := book.modify id ⟨price, qty⟩ t
      if r.1 then
        (r.2.2,
          [Action.sendTo m.fromId MsgType.ORDER_ACCEPTED
             (Body.accepted id none none price qty true),
           Action.emitBus (BusEvent.orderLog t m.fromId exId MsgType.MODIFY_ORDER
             (Body.modifyRef id price qty)),
           Action.publishAll MsgType.MARKET_DATA (Body.marketData exSymbol (r.2.2.snapshot 10))])
      else
        (book, [Action.sendTo m.fromId MsgType.ORDER_REJECTED
          (Body.rejected "Unknown order id" MsgType.MODIFY_ORDER)])
  | MsgType.MODIFY_ORDER, _ =>
    (book, [Action.sendTo m.fromId MsgType.ORDER_REJECTED
      (Body.rejected "Missing order id" MsgType.MODIFY_ORDER)])
  | MsgType.QUERY_SPREAD, Body.queryDepth d =>
    (book, [Action.sendTo m.fromId MsgType.QUERY_SPREAD
      (Body.spreadReply exSymbol (book.snapshot (d.getD 5)))])
  | MsgType.QUERY_SPREAD, _ =>
    (book, [Action.sendTo m.fromId MsgType.QUERY_SPREAD
      (Body.spreadReply exSymbol (book.snapshot 5))])
  | MsgType.QUERY_LAST, _ =>
    (book, [Action.sendTo m.fromId MsgType.QUERY_LAST (Body.lastReply exSymbol book.last)])
  | _, _ => (book, [])

/-- Placeholder used for the heap's array reads; every read performed by the
embedded heap operations is in bounds, mirroring the source's `!` assertions. -/
def msg0 : Message := ⟨0, 0, MsgType.WAKEUP, Body.nilB, 0⟩

/-- The destructuring swap `[heap[i], heap[j]] = [heap[j], heap[i]]`. -/
def heapSwap (h : Array Message) (i j : Nat) : Array Message :=
  let x := h.getD i msg0
  let y := h.getD j msg0
  (h.setD i y).setD j x

/-- The `PriorityQueue.bubbleUp`: climb while the parent's `at` is strictly
larger.  `idx` strictly decreases, so fuel `h.size` always suffices. -/
def bubbleUp : Nat → Array Message → Nat → Array Message
  | 0, h, _ => h
  | fuel + 1, h, idx =>
    if idx = 0 then h
    else
      let parentIdx := (idx - 1) / 2
      if (h.getD parentIdx msg0).atNs ≤ (h.getD idx msg0).atNs then h
      else bubbleUp fuel (heapSwap h idx parentIdx) parentIdx

/-- The `PriorityQueue.bubbleDown`: sink while a child's `at` is strictly
smaller, comparing left then right against the current smallest.  `idx`
strictly increases, so fuel `h.size` always suffices. -/
def bubbleDown : Nat → Array Message → Nat → Array Message
  | 0, h, _ => h
  | fuel + 1, h, idx =>
    let len := h.size
    let leftIdx := 2 * idx + 1
    let rightIdx := 2 * idx + 2
    let s1 :=
      if leftIdx < len ∧ (h.getD leftIdx msg0).atNs < (h.getD idx msg0).atNs then leftIdx
      else idx
    let s2 :=
      if rightIdx < len ∧ (h.getD rightIdx msg0).atNs < (h.getD s1 msg0).atNs then rightIdx
      else s1
    if s2 = idx then h else bubbleDown fuel (heapSwap h idx s2) s2

/-- The kernel's time-priority queue: a binary heap over messages keyed
only by `at` (class `PriorityQueue` in `src/kernel/PriorityQueue.ts`). -/
structure PriorityQueue where
  heap : Array Message
deriving DecidableEq

/-- The empty queue. -/
def PriorityQueue.empty : PriorityQueue := ⟨#[]⟩

/-- The `PriorityQueue.push`. -/
def PriorityQueue.push (q : PriorityQueue) (x : Message) : PriorityQueue :=
  let h := q.heap.push x
  ⟨bubbleUp h.size h (h.size - 1)⟩

/-- The `PriorityQueue.pop`: return the root, move the last element to the root
and bubble it down. -/
def PriorityQueue.pop (q : PriorityQueue) : Option Message × PriorityQueue :=
  if q.heap.size = 0 then (none, q)
  else if q.heap.size = 1 then (some (q.heap.getD 0 msg0), ⟨#[]⟩)
  else
    let root := q.heap.getD 0 msg0
    let lastElem := q.heap.getD (q.heap.size - 1) msg0
    let h1 := q.heap.pop.setD 0 lastElem
    (some root, ⟨bubbleDown h1.size h1 0⟩)

/-- The `PriorityQueue.peek`. -/
def PriorityQueue.peek (q : PriorityQueue) : Option Message :=
  if q.heap.size = 0 then none else some (q.heap.getD 0 msg0)

/-- Pop repeatedly (at most `n` times), collecting the returned messages in
pop order. -/
def PriorityQueue.drainAll : Nat → PriorityQueue → List Message
  | 0, _ => []
  | n + 1, q =>
    match q.pop with
    | (some m, q') => m :: PriorityQueue.drainAll n q'
    | (none, _) => []

/-- Milliseconds to nanoseconds (`ms` helper of the latency model and
`NS_PER_MS` of the kernel). -/
def msNs (x : Int) : Int := x * 1000000

/-- The `TwoStageRpcLatency` from `src/kernel/LatencyModel.ts`.  The PRNG draw
`Math.round((rnd() * 2 - 1) * downJitterMs)` is abstracted as the field
`jitterDraw`; the source returns 0 without consulting the PRNG whenever
`downJitterMs ≤ 0`, which is the configuration all claims use. -/
structure TwoStageRpcLatency where
  exchangeId : Int
  rpcUpMs : Int
  rpcDownMs : Int
  computeMs : Int
  downJitterMs : Int
  jitterDraw : Int
deriving DecidableEq

/-- Method `jitter()`: 0 when `downJitterMs ≤ 0`, else the (abstracted) draw. -/
def TwoStageRpcLatency.jitter (l : TwoStageRpcLatency) : Int :=
  if l.downJitterMs ≤ 0 then 0 else l.jitterDraw

/-- Method `delayNs(from, to)`: uplink to the exchange, downlink (plus jitter) from
the exchange, uplink otherwise. -/
def TwoStageRpcLatency.delayNs (l : TwoStageRpcLatency) (fromId toId : Int) : Int :=
  if toId = l.exchangeId ∧ fromId ≠ l.exchangeId then msNs l.rpcUpMs
  else if fromId = l.exchangeId ∧ toId ≠ l.exchangeId then msNs (l.rpcDownMs + l.jitter)
  else msNs l.rpcUpMs

/-- Method `computeNs(agentId)`. -/
def TwoStageRpcLatency.computeNs (l : TwoStageRpcLatency) (_agentId : Int) : Int :=
  msNs l.computeMs

/-- The four order-mutating message categories for which `Kernel.send`
synchronously emits an `ORDER_LOG` bus event. -/
def isOrderMsg : MsgType → Bool
  | MsgType.LIMIT_ORDER => true
  | MsgType.MARKET_ORDER => true
  | MsgType.CANCEL_ORDER => true
  | MsgType.MODIFY_ORDER => true
  | _ => false

/-- The delivery time stamped by `Kernel.send`:
`at = now + net + compute + delayNs`, where `compute` applies only when the
receiver is the exchange and the sender is not, and a missing latency model
means zero latency everywhere. -/
def Kernel.sendAt (lat : Option TwoStageRpcLatency) (exchangeId : Int)
    (now fromId toId delayNs : Int) : Int :=
  let compute :=
    if toId = exchangeId ∧ fromId ≠ exchangeId then (lat.map (·.computeNs toId)).getD 0
    else 0
  let net := (lat.map (·.delayNs fromId toId)).getD 0
  now + net + compute + delayNs

/-- The message `Kernel.send` enqueues. -/
def Kernel.mkSendMsg (lat : Option TwoStageRpcLatency) (exchangeId : Int)
    (now fromId toId : Int) (type : MsgType) (body : Body) (delayNs : Int) : Message :=
  ⟨fromId, toId, type, body, Kernel.sendAt lat exchangeId now fromId toId delayNs⟩

/-- The messages `Kernel.broadcast` enqueues: one per registered agent other
than the exchange (the sender), each stamped
`at = now + delayNs(exchange, to) + extraDelay` with no compute delay. -/
def Kernel.broadcastMsgs (agents : List Int) (exchangeId : Int)
    (lat : Option TwoStageRpcLatency) (now : Int) (type : MsgType) (body : Body)
    (extraDelayNs : Int) : List Message :=
  (agents.filter (fun a => a ≠ exchangeId)).map (fun toId =>
    ⟨exchangeId, toId, type, body, now + (lat.map (·.delayNs exchangeId toId)).getD 0 + extraDelayNs⟩)

/-- Kernel state for a closed simulation: the virtual clock, the time queue,
the registered agents, the exchange (with its book) and observation logs.
Non-exchange agents are pure observers recording their deliveries, which is
all the claims need from them. -/
structure SimKernel where
  timeNs : Int
  tickMs : Int
  q : PriorityQueue
  latency : Option TwoStageRpcLatency
  exchangeId : Int
  agentIds : List Int
  exSymbol : String
  book : OrderBook
  exchangeLog : List (Int × MsgType)
  agentLog : List (Int × Message)
  bus : List BusEvent
deriving DecidableEq

/-- The `Kernel.send`: stamp, enqueue, and emit `ORDER_LOG` for mutating types. -/
def SimKernel.send (s : SimKernel) (fromId toId : Int) (type : MsgType) (body : Body)
    (delayNs : Int) : SimKernel :=
  let m := Kernel.mkSendMsg s.latency s.exchangeId s.timeNs fromId toId type body delayNs
  let s1 := { s with q := s.q.push m }
  if isOrderMsg type then
    { s1 with bus := s1.bus ++ [BusEvent.orderLog s.timeNs fromId toId type body] }
  else s1

/-- The `Kernel.broadcast`: enqueue one latency-stamped message per non-sender
agent. -/
def SimKernel.broadcast (s : SimKernel) (type : MsgType) (body : Body)
    (extraDelayNs : Int) : SimKernel :=
  { s with
    q := (Kernel.broadcastMsgs s.agentIds s.exchangeId s.latency s.timeNs type body
      extraDelayNs).foldl (fun q m => q.push m) s.q }

/-- Interpret one action of the exchange handler against the kernel
(`Agent.send` forwards to `kernel.send(this.id, ...)` with zero delay). -/
def SimKernel.applyAction (s : SimKernel) (a : Action) : SimKernel :=
  match a with
  | Action.sendTo recipient type body => s.send s.exchangeId recipient type body 0
  | Action.emitBus ev => { s with bus := s.bus ++ [ev] }
  | Action.publishAll type body => s.broadcast type body 0

/-- The `Kernel.deliver`: route to the exchange's receive handler or log the
delivery at a plain agent; unknown recipients are silently dropped. -/
def SimKernel.deliver (s : SimKernel) (m : Message) : SimKernel :=
  if m.toId = s.exchangeId then
    let r := ExchangeAgent.receive s.exchangeId s.exSymbol s.book s.timeNs m
    let s1 := { s with book := r.1, exchangeLog := s.exchangeLog ++ [(s.timeNs, m.type)] }
    r.2.foldl SimKernel.applyAction s1
  else if s.agentIds.contains m.toId then
    { s with agentLog := s.agentLog ++ [(s.timeNs, m)] }
  else s

/-- The delivery loop of `Kernel.tick`:
`while (q.length && q.peek().at <= timeNs) deliver(q.pop())`. -/
def SimKernel.drain : Nat → SimKernel → SimKernel
  | 0, s => s
  | fuel + 1, s =>
    match s.q.peek with
    | some m0 =>
      if m0.atNs ≤ s.timeNs then
        match s.q.pop with
        | (some m, q') => SimKernel.drain fuel (SimKernel.deliver { s with q := q' } m)
        | (none, _) => s
      else s
    | none => s

/-- The `Kernel.tick`: advance the virtual clock by `tickMs` (in ns), then
deliver everything due. -/
def SimKernel.tick (fuel : Nat) (s : SimKernel) : SimKernel :=
  SimKernel.drain fuel { s with timeNs := s.timeNs + s.tickMs * 1000000 }

/-- Run `n` consecutive ticks. -/
def SimKernel.run (fuel : Nat) : Nat → SimKernel → SimKernel
  | 0, s => s
  | n + 1, s => SimKernel.run fuel n (SimKernel.tick fuel s)

/-- Holds (`true`) when both sides are non-empty and the top bid's price is at least
the top ask's price (the crossing condition of the `match` loop). -/
def crossedB (bids asks : List LimitOrder) : Bool :=
  match bids, asks with
  | bid :: _, ask :: _ => decide (ask.price ≤ bid.price)
  | _, _ => false

/-- A book is uncrossed when a side is empty or `bestBid.price < bestAsk.price`
strictly (`bestBid`/`bestAsk` are `bids[0]`/`asks[0]` in the source). -/
def OrderBook.uncrossed (b : OrderBook) : Bool :=
  !crossedB b.bids b.asks

/-- Order `a` may legitimately stand directly before `b` on the bid side:
`a` is not strictly out of order with respect to `b` under the bid
comparator (descending price, then ascending `ts`). -/
def bidOrdOk (a b : LimitOrder) : Bool := !(bidBefore b a)

/-- Same for the ask side (ascending price, then ascending `ts`). -/
def askOrdOk (a b : LimitOrder) : Bool := !(askBefore b a)

/-- Every adjacent pair of the list satisfies `ok`. -/
def chainB (ok : LimitOrder → LimitOrder → Bool) : List LimitOrder → Bool
  | [] => true
  | [_] => true
  | a :: b :: rest => ok a b && chainB ok (b :: rest)

/-- Modelled from the spec, §4.3 "Matching algorithm": a trace of the match
loop from an initial `(bids, asks, last)` through a list of executions to a
final state.  While the tops cross, one execution is produced whose price is
the `ts`-earlier top's price and whose qty is `min(bestBid.qty, bestAsk.qty)`;
both tops are decremented by that qty, `last` becomes the execution price and
a top whose qty reached 0 is removed; the trace ends only in a non-crossed
state.  (Maker/taker attribution is not constrained by this relation.) -/
inductive MatchTrace : List LimitOrder → List LimitOrder → Option Int →
    List Exec → List LimitOrder → List LimitOrder → Option Int → Prop
  | done (bids asks : List LimitOrder) (last : Option Int)
      (h : crossedB bids asks = false) :
      MatchTrace bids asks last [] bids asks last
  | step (bid ask : LimitOrder) (bs as : List LimitOrder) (last : Option Int)
      (e : Exec) (es : List Exec) (bids' asks' fb fa : List LimitOrder) (fl : Option Int)
      (hcross : ask.price ≤ bid.price)
      (hprice : e.price = if bid.ts ≤ ask.ts then bid.price else ask.price)
      (hqty : e.qty = min bid.qty ask.qty)
      (hbids : bids' = if bid.qty - e.qty = 0 then bs
        else { bid with qty := bid.qty - e.qty } :: bs)
      (hasks : asks' = if ask.qty - e.qty = 0 then as
        else { ask with qty := ask.qty - e.qty } :: as)
      (hrest : MatchTrace bids' asks' (some e.price) es fb fa fl) :
      MatchTrace (bid :: bs) (ask :: as) last (e :: es) fb fa fl

/-- The MARKET_DATA bodies broadcast by a list of handler actions. -/
def broadcastsOf (acts : List Action) : List Body :=
  acts.filterMap (fun a =>
    match a with
    | Action.publishAll MsgType.MARKET_DATA b => some b
    | _ => none)

/-- The ORDER_REJECTED bodies sent to `agent` by a list of handler actions. -/
def rejectSendsTo (acts : List Action) (agent : Int) : List Body :=
  acts.filterMap (fun a =>
    match a with
    | Action.sendTo r MsgType.ORDER_REJECTED b => if r = agent then some b else none
    | _ => none)

/-- Is this action a point-to-point `ORDER_EXECUTED` send? -/
def isExecSend : Action → Bool
  | Action.sendTo _ MsgType.ORDER_EXECUTED _ => true
  | _ => false

/-- Is this action a `TRADE` bus emission? -/
def isTradeEmit : Action → Bool
  | Action.emitBus (BusEvent.trade _ _ _ _ _ _ _) => true
  | _ => false

/-- Number of `TRADE` bus emissions in an action list. -/
def countTradeEmits (acts : List Action) : Nat := (acts.filter isTradeEmit).length

/-- Number of `ORDER_EXECUTED` sends in an action list. -/
def countExecSends (acts : List Action) : Nat := (acts.filter isExecSend).length

/-- Number of `ORDER_EXECUTED` sends addressed to `agent`. -/
def countExecSendsTo (acts : List Action) (agent : Int) : Nat :=
  (acts.filter (fun a =>
    match a with
    | Action.sendTo r MsgType.ORDER_EXECUTED _ => decide (r = agent)
    | _ => false)).length

/-- Placeholder action for positional lookups. -/
def act0 : Action := Action.emitBus (BusEvent.orderLog 0 0 0 MsgType.WAKEUP Body.nilB)

/-- Holds (`true`) iff some `TRADE` emission sits strictly between two
`ORDER_EXECUTED` sends in the action list (position-wise). -/
def tradeBetweenExecs (acts : List Action) : Bool :=
  (List.range acts.length).any (fun i =>
    (List.range acts.length).any (fun j =>
      (List.range acts.length).any (fun k =>
        decide (i < k) && decide (k < j) &&
        isExecSend (acts.getD i act0) && isExecSend (acts.getD j act0) &&
        isTradeEmit (acts.getD k act0))))

/-- Three wake-up messages sharing `at = 1000`, distinguished by recipient;
pushed in the order `wk1`, `wk2`, `wk3`. -/
def wk1 : Message := ⟨0, 1, MsgType.WAKEUP, Body.nilB, 1000⟩

/-- Second of the three equal-`at` messages. -/
def wk2 : Message := ⟨0, 2, MsgType.WAKEUP, Body.nilB, 1000⟩

/-- Third of the three equal-`at` messages. -/
def wk3 : Message := ⟨0, 3, MsgType.WAKEUP, Body.nilB, 1000⟩

/-- The queue after pushing `wk1`, `wk2`, `wk3` in that order. -/
def fifoQueue : PriorityQueue := ((PriorityQueue.empty.push wk1).push wk2).push wk3

/-- A side-ordered but crossed book: best bid 105 above best ask 100.
Such states arise from `modify` raising a resident bid's price. -/
def crossedBook : OrderBook :=
  ⟨"S", [⟨"b1", 1, "S", Side.BUY, 105, 1, 1⟩], [⟨"a1", 2, "S", Side.SELL, 100, 5, 1⟩], none⟩

/-- An uncrossed one-bid/one-ask book used by the modify-crossing scenario. -/
def modBook : OrderBook :=
  ⟨"S", [⟨"b1", 1, "S", Side.BUY, 100, 4, 1⟩], [⟨"a1", 2, "S", Side.SELL, 105, 5, 1⟩], none⟩

/-- Book `modBook` after `modify("b1", {price: 106}, 9)`: the bid now stands above
the resident ask. -/
def modBookCrossed : OrderBook := (modBook.modify "b1" ⟨some 106, none⟩ 9).2.2

/-- A fresh SELL limit order placed into `modBookCrossed`; `placeLimit` runs
the match loop and uncrosses the book. -/
def modBookSell : LimitOrder := ⟨"s9", 3, "S", Side.SELL, 200, 1, 9⟩

/-- A resting one-bid book for the SELL-limit crossing scenario. -/
def restingBidBook : OrderBook :=
  ⟨"S", [⟨"b1", 1, "S", Side.BUY, 100, 5, 1⟩], [], none⟩

/-- An aggressive SELL limit order crossing `restingBidBook`'s bid. -/
def sellCross : LimitOrder := ⟨"s1", 2, "S", Side.SELL, 95, 3, 2⟩

/-- The inbound LIMIT_ORDER message carrying `sellCross` from agent 2. -/
def sellCrossMsg : Message := ⟨2, 9, MsgType.LIMIT_ORDER, Body.limit sellCross, 0⟩

/-- The handler's action sequence for the SELL-limit crossing scenario. -/
def sellCrossActs : List Action :=
  (ExchangeAgent.receive 9 "S" restingBidBook 5 sellCrossMsg).2

/-- The two-stage RPC latency configuration of the latency-layering
scenario: up 200 ms, compute 300 ms, down 200 ms, no jitter; exchange id 1. -/
def rpcLat : TwoStageRpcLatency := ⟨1, 200, 200, 300, 0, 0⟩

/-- The LIMIT_ORDER issued by agent 2 at virtual time 0. -/
def limitAt0 : LimitOrder := ⟨"o1", 2, "ACME", Side.BUY, 10000, 1, 0⟩

/-- Initial kernel state of the latency scenario: time 0, tickMs 200,
empty queue, exchange id 1 with an empty book, one trader agent id 2. -/
def sim0 : SimKernel :=
  ⟨0, 200, PriorityQueue.empty, some rpcLat, 1, [1, 2], "ACME", ⟨"ACME", [], [], none⟩, [], [], []⟩

/-- The state after the trader issues the LIMIT_ORDER via `Kernel.send`
at virtual time 0. -/
def simSent : SimKernel := sim0.send 2 1 MsgType.LIMIT_ORDER (Body.limit limitAt0) 0

/-- The state after four kernel ticks (virtual time 800 ms). -/
def simEnd : SimKernel := SimKernel.run 10 4 simSent

/-- Scenario-4 book: one resident BUY `b1` at price 500, qty 10, ts 1. -/
def modBook4 : OrderBook :=
  ⟨"S", [⟨"b1", 7, "S", Side.BUY, 500, 10, 1⟩], [], none⟩

/-- With adequate fuel (`bids.length + asks.length`, which is what
`placeLimit` passes) the match loop's run is a `MatchTrace`: fuel cannot run
out because every iteration removes at least one order from the tops. -/
theorem matchLoop_toTrace :
    ∀ (fuel : Nat) (bids asks : List LimitOrder) (last : Option Int),
      bids.length + asks.length ≤ fuel →
      MatchTrace bids asks last (matchLoop fuel bids asks last).execs
        (matchLoop fuel bids asks last).bids (matchLoop fuel bids asks last).asks
        (matchLoop fuel bids asks last).last
  | 0, bids, asks, last, h => by
    have hb : bids = [] := List.eq_nil_of_length_eq_zero (by omega)
    have ha : asks = [] := List.eq_nil_of_length_eq_zero (by omega)
    subst hb; subst ha
    exact MatchTrace.done [] [] last rfl
  | _ + 1, [], asks, last, _ => MatchTrace.done [] asks last rfl
  | _ + 1, bid :: bs, [], last, _ => MatchTrace.done (bid :: bs) [] last rfl
  | fuel + 1, bid :: bs, ask :: as, last, h => by
    by_cases hlt : bid.price < ask.price
    · have he : matchLoop (fuel + 1) (bid :: bs) (ask :: as) last =
          ⟨[], bid :: bs, ask :: as, last⟩ := by
        simp [matchLoop, hlt]
      rw [he]
      exact MatchTrace.done _ _ _ (by simp [crossedB]; omega)
    · have hle : ask.price ≤ bid.price := not_lt.mp hlt
      have hq : bid.qty - min bid.qty ask.qty = 0 ∨ ask.qty - min bid.qty ask.qty = 0 := by
        rcases le_total bid.qty ask.qty with h' | h'
        · left; rw [min_eq_left h']; omega
        · right; rw [min_eq_right h']; omega
      have hlen :
          (if bid.qty - min bid.qty ask.qty = 0 then bs
            else { bid with qty := bid.qty - min bid.qty ask.qty } :: bs).length +
          (if ask.qty - min bid.qty ask.qty = 0 then as
            else { ask with qty := ask.qty - min bid.qty ask.qty } :: as).length ≤ fuel := by
        rcases hq with h' | h' <;> rw [if_pos h'] <;> split <;>
          simp only [List.length_cons, List.length] at h ⊢ <;> omega
      have ih := matchLoop_toTrace fuel
        (if bid.qty - min bid.qty ask.qty = 0 then bs
          else { bid with qty := bid.qty - min bid.qty ask.qty } :: bs)
        (if ask.qty - min bid.qty ask.qty = 0 then as
          else { ask with qty := ask.qty - min bid.qty ask.qty } :: as)
        (some (if bid.ts ≤ ask.ts then bid.price else ask.price)) hlen
      have he : matchLoop (fuel + 1) (bid :: bs) (ask :: as) last =
          ⟨⟨if bid.ts ≤ ask.ts then bid.price else ask.price, min bid.qty ask.qty,
              ask.agent, bid.agent, ask.id, bid.id⟩ ::
            (matchLoop fuel
              (if bid.qty - min bid.qty ask.qty = 0 then bs
                else { bid with qty := bid.qty - min bid.qty ask.qty } :: bs)
              (if ask.qty - min bid.qty ask.qty = 0 then as
                else { ask with qty := ask.qty - min bid.qty ask.qty } :: as)
              (some (if bid.ts ≤ ask.ts then bid.price else ask.price))).execs,
            (matchLoop fuel
              (if bid.qty - min bid.qty ask.qty = 0 then bs
                else { bid with qty := bid.qty - min bid.qty ask.qty } :: bs)
              (if ask.qty - min bid.qty ask.qty = 0 then as
                else { ask with qty := ask.qty - min bid.qty ask.qty } :: as)
              (some (if bid.ts ≤ ask.ts then bid.price else ask.price))).bids,
            (matchLoop fuel
              (if bid.qty - min bid.qty ask.qty = 0 then bs
                else { bid with qty := bid.qty - min bid.qty ask.qty } :: bs)
              (if ask.qty - min bid.qty ask.qty = 0 then as
                else { ask with qty := ask.qty - min bid.qty ask.qty } :: as)
              (some (if bid.ts ≤ ask.ts then bid.price else ask.price))).asks,
            (matchLoop fuel
              (if bid.qty - min bid.qty ask.qty = 0 then bs
                else { bid with qty := bid.qty - min bid.qty ask.qty } :: bs)
              (if ask.qty - min bid.qty ask.qty = 0 then as
                else { ask with qty := ask.qty - min bid.qty ask.qty } :: as)
              (some (if bid.ts ≤ ask.ts then bid.price else ask.price))).last⟩ := by
        simp [matchLoop, hlt]
      rw [he]
      exact MatchTrace.step bid ask bs as last _ _ _ _ _ _ _ hle rfl rfl rfl rfl ih

/-- The final state of a match trace is never crossed: the loop exits only
when a side is empty or `bestBid.price < bestAsk.price`. -/
theorem MatchTrace.final_uncrossed {bids asks : List LimitOrder} {last : Option Int}
    {es : List Exec} {fb fa : List LimitOrder} {fl : Option Int}
    (h : MatchTrace bids asks last es fb fa fl) : crossedB fb fa = false := by
  induction h with
  | done _ _ _ hdone => exact hdone
  | step _ _ _ _ _ _ _ _ _ _ _ _ _ _ _ _ _ _ ih => exact ih

/-- C3: the limit-order match loop refines the spec's matching algorithm.
Starting from the book `placeLimit` hands to `match` (after insertion and
sorting), the executions and final book of `placeLimit` form a `MatchTrace`:
while the book is crossed, each execution's price is the `ts`-earlier top's
price (`bestBid.price` when `bestBid.ts ≤ bestAsk.ts`, else
`bestAsk.price`), its qty is `min(bestBid.qty, bestAsk.qty)`, both tops are
decremented by that qty, `last` becomes the execution price, and a top
whose qty reached 0 is removed. -/
theorem placeLimit_match_refines_spec (b : OrderBook) (o : LimitOrder) :
    MatchTrace (b.insertOrder o).bids (b.insertOrder o).asks (b.insertOrder o).last
      (b.placeLimit o).1 ((b.placeLimit o).2).bids ((b.placeLimit o).2).asks
      ((b.placeLimit o).2).last :=
  matchLoop_toTrace ((b.insertOrder o).bids.length + (b.insertOrder o).asks.length)
    (b.insertOrder o).bids (b.insertOrder o).asks (b.insertOrder o).last le_rfl

/-- An empty side stays empty under the market sweep. -/
theorem sweepLoop_nil (fuel : Nat) (remain : Int) (last : Option Int) :
    (sweepLoop fuel [] remain last).book = [] := by
  cases fuel with
  | zero => rfl
  | succ n => simp [sweepLoop]

/-- The market sweep consumes the swept side from the front: any head of the
resulting side is bounded (via a transitive price relation that holds along
the input chain) by the head of the input side.  Instantiated with `≤` for
asks and `≥` for bids. -/
theorem sweepLoop_head (P : Int → Int → Prop) (hrefl : ∀ x, P x x)
    (htr : ∀ x y z, P x y → P y z → P x z) :
    ∀ (fuel : Nat) (book : List LimitOrder) (remain : Int) (last : Option Int),
      List.Chain' (fun a b => P a.price b.price) book →
      ∀ o', ((sweepLoop fuel book remain last).book).head? = some o' →
      ∃ o, book.head? = some o ∧ P o.price o'.price
  | 0, book, remain, last, _, o', ho' => ⟨o', ho', hrefl o'.price⟩
  | fuel + 1, book, remain, last, hchain, o', ho' => by
    by_cases hr : remain ≤ 0
    · rw [show (sweepLoop (fuel + 1) book remain last).book = book by
        simp [sweepLoop, hr]] at ho'
      exact ⟨o', ho', hrefl o'.price⟩
    · cases book with
      | nil =>
        rw [show (sweepLoop (fuel + 1) ([] : List LimitOrder) remain last).book = [] by
          simp [sweepLoop, hr]] at ho'
        exact absurd ho' (by simp)
      | cons top rest =>
        by_cases h0 : top.qty - min remain top.qty = 0
        · have he : (sweepLoop (fuel + 1) (top :: rest) remain last).book =
              (sweepLoop fuel rest (remain - min remain top.qty) (some top.price)).book := by
            simp [sweepLoop, hr, h0]
          rw [he] at ho'
          cases rest with
          | nil => rw [sweepLoop_nil] at ho'; exact absurd ho' (by simp)
          | cons y ys =>
            obtain ⟨o, ho, hp⟩ := sweepLoop_head P hrefl htr fuel (y :: ys)
              (remain - min remain top.qty) (some top.price) hchain.tail o' ho'
            have hy : y = o := by simpa using ho
            subst hy
            exact ⟨top, rfl, htr top.price y.price o'.price
              ((List.chain'_cons.mp hchain).1) hp⟩
        · have he : (sweepLoop (fuel + 1) (top :: rest) remain last).book =
              (sweepLoop fuel ({ top with qty := top.qty - min remain top.qty } :: rest)
                (remain - min remain top.qty) (some top.price)).book := by
            simp [sweepLoop, hr, h0]
          rw [he] at ho'
          have hchain' : List.Chain'
              (fun a b : LimitOrder => P a.price b.price)
              ({ top with qty := top.qty - min remain top.qty } :: rest) := by
            cases rest with
            | nil => simp
            | cons y ys =>
              rw [List.chain'_cons] at hchain ⊢
              exact ⟨hchain.1, hchain.2⟩
          obtain ⟨o, ho, hp⟩ := sweepLoop_head P hrefl htr fuel
            ({ top with qty := top.qty - min remain top.qty } :: rest)
            (remain - min remain top.qty) (some top.price) hchain' o' ho'
          have hy : { top with qty := top.qty - min remain top.qty } = o := by
            simpa using ho
          subst hy
          exact ⟨top, rfl, hp⟩

/-- Ordered adjacency on the bid side forces non-increasing prices. -/
theorem chainB_bid_prices :
    ∀ l : List LimitOrder, chainB bidOrdOk l = true →
      List.Chain' (fun a b : LimitOrder => b.price ≤ a.price) l
  | [] => fun _ => List.chain'_nil
  | [_] => fun _ => by simp
  | a :: b :: rest => fun h => by
    have h' := h
    simp only [chainB, Bool.and_eq_true] at h'
    rw [List.chain'_cons]
    refine ⟨?_, chainB_bid_prices (b :: rest) h'.2⟩
    have hb := h'.1
    simp only [bidOrdOk, bidBefore, Bool.not_eq_true', Bool.or_eq_false_iff,
      Bool.and_eq_false_iff, decide_eq_false_iff_not, not_lt] at hb
    exact hb.1

/-- Ordered adjacency on the ask side forces non-decreasing prices. -/
theorem chainB_ask_prices :
    ∀ l : List LimitOrder, chainB askOrdOk l = true →
      List.Chain' (fun a b : LimitOrder => a.price ≤ b.price) l
  | [] => fun _ => List.chain'_nil
  | [_] => fun _ => by simp
  | a :: b :: rest => fun h => by
    have h' := h
    simp only [chainB, Bool.and_eq_true] at h'
    rw [List.chain'_cons]
    refine ⟨?_, chainB_ask_prices (b :: rest) h'.2⟩
    have hb := h'.1
    simp only [askOrdOk, askBefore, Bool.not_eq_true', Bool.or_eq_false_iff,
      Bool.and_eq_false_iff, decide_eq_false_iff_not, not_lt] at hb
    exact hb.1

/-- C2 as amended: after `placeLimit` returns, the book is not crossed —
one side is empty or `bestBid.price < bestAsk.price` strictly — for every
input state, because `placeLimit` sorts and runs the match loop to
completion.  After `placeMarket` returns, the book is not crossed provided
the sides are side-ordered and the book was not crossed before the call;
the counterexample shows the extra hypothesis is forced, since
`placeMarket` never runs the match loop and cannot uncross a crossed book. -/
theorem placeLimit_placeMarket_uncrossed :
    (∀ (b : OrderBook) (o : LimitOrder), ((b.placeLimit o).2).uncrossed = true) ∧
    (∀ (b : OrderBook) (agent : Int) (side : Side) (qty ts : Int),
      chainB bidOrdOk b.bids = true → chainB askOrdOk b.asks = true →
      b.uncrossed = true →
      ((b.placeMarket agent side qty ts).2).uncrossed = true) := by
  constructor
  · intro b o
    have hc := MatchTrace.final_uncrossed (matchLoop_toTrace
      ((b.insertOrder o).bids.length + (b.insertOrder o).asks.length)
      (b.insertOrder o).bids (b.insertOrder o).asks (b.insertOrder o).last le_rfl)
    simp only [OrderBook.uncrossed, OrderBook.placeLimit]
    rw [hc]
    rfl
  · intro b agent side qty ts hb ha hun
    unfold OrderBook.uncrossed at hun ⊢
    cases side with
    | BUY =>
      have hgoal : (b.placeMarket agent Side.BUY qty ts).2 =
          { b with asks := (sweepLoop (b.asks.length + 2) b.asks qty b.last).book,
                   last := (sweepLoop (b.asks.length + 2) b.asks qty b.last).last } := by
        simp [OrderBook.placeMarket]
      rw [hgoal]
      rcases hbids : b.bids with _ | ⟨bh, bt⟩
      · rfl
      · rcases hbook : (sweepLoop (b.asks.length + 2) b.asks qty b.last).book
          with _ | ⟨o', rest'⟩
        · simp [hbook, crossedB]
        · rcases hasks : b.asks with _ | ⟨ah, at2⟩
          · rw [hasks, sweepLoop_nil] at hbook
            exact absurd hbook (by simp)
          · obtain ⟨o, ho, hp⟩ := sweepLoop_head (fun x y => x ≤ y) (fun x => le_refl x)
              (fun x y z h1 h2 => le_trans h1 h2) (b.asks.length + 2) b.asks qty b.last
              (chainB_ask_prices b.asks ha) o' (by rw [hbook]; rfl)
            rw [hasks] at ho
            have ho2 : o = ah := by simpa using ho.symm
            subst ho2
            rw [hbids, hasks] at hun
            simp only [crossedB, Bool.not_eq_true', decide_eq_false_iff_not, not_le] at hun
            simp only [hbook, hbids, crossedB, Bool.not_eq_true', decide_eq_false_iff_not,
              not_le]
            omega
    | SELL =>
      have hgoal : (b.placeMarket agent Side.SELL qty ts).2 =
          { b with bids := (sweepLoop (b.bids.length + 2) b.bids qty b.last).book,
                   last := (sweepLoop (b.bids.length + 2) b.bids qty b.last).last } := by
        simp [OrderBook.placeMarket]
      rw [hgoal]
      rcases hbook : (sweepLoop (b.bids.length + 2) b.bids qty b.last).book
        with _ | ⟨o', rest'⟩
      · simp [hbook, crossedB]
      · rcases hasks : b.asks with _ | ⟨ah, at2⟩
        · simp [hbook, hasks, crossedB]
        · rcases hbids : b.bids with _ | ⟨bh, bt⟩
          · rw [hbids, sweepLoop_nil] at hbook
            exact absurd hbook (by simp)
          · obtain ⟨o, ho, hp⟩ := sweepLoop_head (fun x y => y ≤ x) (fun x => le_refl x)
              (fun x y z h1 h2 => le_trans h2 h1) (b.bids.length + 2) b.bids qty b.last
              (chainB_bid_prices b.bids hb) o' (by rw [hbook]; rfl)
            rw [hbids] at ho
            have ho2 : o = bh := by simpa using ho.symm
            subst ho2
            rw [hbids, hasks] at hun
            simp only [crossedB, Bool.not_eq_true', decide_eq_false_iff_not, not_le] at hun
            simp only [hbook, hasks, crossedB, Bool.not_eq_true', decide_eq_false_iff_not,
              not_le]
            omega

/-- Witness: the amended C2 theorem applied at concrete inputs. -/
theorem placeLimit_placeMarket_uncrossed_witness :
    ((restingBidBook.placeLimit sellCross).2).uncrossed = true ∧
    ((modBook.placeMarket 9 Side.BUY 2 7).2).uncrossed = true :=
  ⟨placeLimit_placeMarket_uncrossed.1 restingBidBook sellCross,
   placeLimit_placeMarket_uncrossed.2 modBook 9 Side.BUY 2 7 (by decide) (by decide)
     (by decide)⟩

/-- The sweep leaves `remain` unchanged on an empty side. -/
theorem sweepLoop_nil_remain (fuel : Nat) (remain : Int) (last : Option Int) :
    (sweepLoop fuel [] remain last).remain = remain := by
  cases fuel with
  | zero => rfl
  | succ n => simp [sweepLoop]

/-- Quantity `remain` never increases along the sweep when resident quantities are
nonnegative. -/
theorem sweepLoop_remain_le :
    ∀ (fuel : Nat) (book : List LimitOrder) (remain : Int) (last : Option Int),
      (∀ o ∈ book, 0 ≤ o.qty) →
      (sweepLoop fuel book remain last).remain ≤ remain
  | 0, _, _, _, _ => le_rfl
  | fuel + 1, book, remain, last, hpos => by
    by_cases hr : remain ≤ 0
    · rw [show (sweepLoop (fuel + 1) book remain last).remain = remain by
        simp [sweepLoop, hr]]
    · cases book with
      | nil =>
        rw [show (sweepLoop (fuel + 1) ([] : List LimitOrder) remain last).remain = remain by
          simp [sweepLoop, hr]]
      | cons top rest =>
        have htop : 0 ≤ top.qty := hpos top (by simp)
        have hrest : ∀ o ∈ rest, 0 ≤ o.qty := fun o ho => hpos o (by simp [ho])
        have htake : 0 ≤ min remain top.qty := le_min (by omega) htop
        by_cases h0 : top.qty - min remain top.qty = 0
        · have he : (sweepLoop (fuel + 1) (top :: rest) remain last).remain =
              (sweepLoop fuel rest (remain - min remain top.qty) (some top.price)).remain := by
            simp [sweepLoop, hr, h0]
          rw [he]
          have := sweepLoop_remain_le fuel rest (remain - min remain top.qty)
            (some top.price) hrest
          omega
        · have he : (sweepLoop (fuel + 1) (top :: rest) remain last).remain =
              (sweepLoop fuel ({ top with qty := top.qty - min remain top.qty } :: rest)
                (remain - min remain top.qty) (some top.price)).remain := by
            simp [sweepLoop, hr, h0]
          rw [he]
          have hpos' : ∀ o ∈ ({ top with qty := top.qty - min remain top.qty } :: rest),
              0 ≤ o.qty := by
            intro o ho
            rcases List.mem_cons.mp ho with h | h
            · subst h
              have := min_le_right remain top.qty
              simp only []
              omega
            · exact hrest o h
          have := sweepLoop_remain_le fuel
            ({ top with qty := top.qty - min remain top.qty } :: rest)
            (remain - min remain top.qty) (some top.price) hpos'
          omega

/-- With positive `remain` and a positive-quantity top, the sweep strictly
decreases `remain`: the market order fills something. -/
theorem sweepLoop_progress (fuel : Nat) (top : LimitOrder) (rest : List LimitOrder)
    (remain : Int) (last : Option Int) (hrem : 0 < remain) (htop : 0 < top.qty)
    (hrest : ∀ o ∈ rest, 0 ≤ o.qty) :
    (sweepLoop (fuel + 1) (top :: rest) remain last).remain < remain := by
  have hr : ¬ remain ≤ 0 := by omega
  have htake : 0 < min remain top.qty := lt_min hrem htop
  by_cases h0 : top.qty - min remain top.qty = 0
  · have he : (sweepLoop (fuel + 1) (top :: rest) remain last).remain =
        (sweepLoop fuel rest (remain - min remain top.qty) (some top.price)).remain := by
      simp [sweepLoop, hr, h0]
    rw [he]
    have := sweepLoop_remain_le fuel rest (remain - min remain top.qty)
      (some top.price) hrest
    omega
  · have he : (sweepLoop (fuel + 1) (top :: rest) remain last).remain =
        (sweepLoop fuel ({ top with qty := top.qty - min remain top.qty } :: rest)
          (remain - min remain top.qty) (some top.price)).remain := by
      simp [sweepLoop, hr, h0]
    rw [he]
    have hpos' : ∀ o ∈ ({ top with qty := top.qty - min remain top.qty } :: rest),
        0 ≤ o.qty := by
      intro o ho
      rcases List.mem_cons.mp ho with h | h
      · subst h
        have := min_le_right remain top.qty
        simp only []
        omega
      · exact hrest o h
    have := sweepLoop_remain_le fuel
      ({ top with qty := top.qty - min remain top.qty } :: rest)
      (remain - min remain top.qty) (some top.price) hpos'
    omega

/-- The amount consumed by the sweep equals the sum of the recorded
execution quantities. -/
theorem sweepLoop_filled_sum :
    ∀ (fuel : Nat) (book : List LimitOrder) (remain : Int) (last : Option Int),
      remain - (sweepLoop fuel book remain last).remain =
        ((sweepLoop fuel book remain last).execs.map (fun e => e.qty)).sum
  | 0, _, _, _ => by simp [sweepLoop]
  | fuel + 1, book, remain, last => by
    by_cases hr : remain ≤ 0
    · simp [sweepLoop, hr]
    · cases book with
      | nil => simp [sweepLoop, hr]
      | cons top rest =>
        by_cases h0 : top.qty - min remain top.qty = 0
        · have ih := sweepLoop_filled_sum fuel rest (remain - min remain top.qty)
            (some top.price)
          have he : sweepLoop (fuel + 1) (top :: rest) remain last =
              ⟨⟨top.price, min remain top.qty, top.agent, top.id⟩ ::
                 (sweepLoop fuel rest (remain - min remain top.qty) (some top.price)).execs,
               (sweepLoop fuel rest (remain - min remain top.qty) (some top.price)).book,
               (sweepLoop fuel rest (remain - min remain top.qty) (some top.price)).last,
               (sweepLoop fuel rest (remain - min remain top.qty) (some top.price)).remain⟩ := by
            simp [sweepLoop, hr, h0]
          rw [he]
          simp only [List.map_cons, List.sum_cons]
          omega
        · have ih := sweepLoop_filled_sum fuel
            ({ top with qty := top.qty - min remain top.qty } :: rest)
            (remain - min remain top.qty) (some top.price)
          have he : sweepLoop (fuel + 1) (top :: rest) remain last =
              ⟨⟨top.price, min remain top.qty, top.agent, top.id⟩ ::
                 (sweepLoop fuel ({ top with qty := top.qty - min remain top.qty } :: rest)
                   (remain - min remain top.qty) (some top.price)).execs,
               (sweepLoop fuel ({ top with qty := top.qty - min remain top.qty } :: rest)
                 (remain - min remain top.qty) (some top.price)).book,
               (sweepLoop fuel ({ top with qty := top.qty - min remain top.qty } :: rest)
                 (remain - min remain top.qty) (some top.price)).last,
               (sweepLoop fuel ({ top with qty := top.qty - min remain top.qty } :: rest)
                 (remain - min remain top.qty) (some top.price)).remain⟩ := by
            simp [sweepLoop, hr, h0]
          rw [he]
          simp only [List.map_cons, List.sum_cons]
          omega

/-- One fill-or-empty dichotomy: a positive market order against a nonempty
side of positive-quantity residents fills a positive amount. -/
theorem sweep_filled_pos (top : LimitOrder) (rest : List LimitOrder) (qty : Int)
    (last : Option Int) (hq : 0 < qty) (hpos : ∀ o ∈ top :: rest, 0 < o.qty) :
    0 < qty - (sweepLoop ((top :: rest).length + 2) (top :: rest) qty last).remain := by
  have hfi : (top :: rest).length + 2 = (rest.length + 2) + 1 := by
    simp only [List.length_cons]
  rw [hfi]
  have hlt := sweepLoop_progress (rest.length + 2) top rest qty last hq
    (hpos top (by simp)) (fun o ho => le_of_lt (hpos o (by simp [ho])))
  omega

/-- Here `filled = 0` exactly on an empty opposite side, and `filled` equals the
sum of the execution quantities (list-level form). -/
theorem market_sweep_facts (opp : List LimitOrder) (qty : Int) (last : Option Int)
    (hq : 0 < qty) (hpos : ∀ o ∈ opp, 0 < o.qty) :
    (qty - (sweepLoop (opp.length + 2) opp qty last).remain = 0 ↔ opp = []) ∧
    qty - (sweepLoop (opp.length + 2) opp qty last).remain =
      ((sweepLoop (opp.length + 2) opp qty last).execs.map (fun e => e.qty)).sum := by
  refine ⟨?_, sweepLoop_filled_sum _ _ _ _⟩
  cases opp with
  | nil => simp [sweepLoop_nil_remain]
  | cons top rest =>
    have hp := sweep_filled_pos top rest qty last hq hpos
    constructor
    · intro h; omega
    · intro h; exact absurd h (by simp)

/-- A `filterMap` that yields nothing on each generated segment yields
nothing on the whole `flatMap`. -/
theorem filterMap_flatMap_nil {α β γ : Type} (g : α → Option β) (f : γ → List α) :
    ∀ l : List γ, (∀ e, (f e).filterMap g = []) → (l.flatMap f).filterMap g = []
  | [], _ => rfl
  | x :: xs, h => by
    rw [List.flatMap_cons, List.filterMap_append, h x,
      filterMap_flatMap_nil g f xs h]
    rfl

/-- The MARKET_ORDER handler rejects with "No liquidity" exactly when the
book's `placeMarket` filled nothing (given a valid, positive qty). -/
theorem market_handler_rejects (exId : Int) (exSymbol : String) (book : OrderBook)
    (t fromId toId atNs : Int) (side : Side) (qty : Int) (hq : 0 < qty) :
    rejectSendsTo (ExchangeAgent.receive exId exSymbol book t
        ⟨fromId, toId, MsgType.MARKET_ORDER, Body.market side qty, atNs⟩).2 fromId =
      (if 0 < (book.placeMarket fromId side qty t).1.1 then []
       else [Body.rejected "No liquidity" MsgType.MARKET_ORDER]) := by
  have hq' : ¬ qty ≤ 0 := by omega
  simp only [ExchangeAgent.receive, if_neg hq']
  by_cases hf : 0 < (book.placeMarket fromId side qty t).1.1
  · rw [if_pos hf, if_pos hf]
    unfold rejectSendsTo
    rw [List.filterMap_append]
    apply List.append_eq_nil.mpr
    constructor
    · apply filterMap_flatMap_nil
      intro e
      rfl
    · rfl
  · rw [if_neg hf, if_neg hf]
    unfold rejectSendsTo
    rw [List.filterMap_append]
    simp

/-- C9: for a valid market order (qty > 0) under the invariant that resident
orders carry positive quantity: `placeMarket` fills 0 exactly when the
opposite side is empty at the start of the sweep; the exchange sends
`ORDER_REJECTED("No liquidity")` to the sender exactly when `filled = 0`;
otherwise no rejection is sent; and `filled` always equals the sum of the
execution quantities. -/
theorem market_no_liquidity_reject (exId : Int) (exSymbol : String) (book : OrderBook)
    (t fromId toId atNs : Int) (side : Side) (qty : Int)
    (hq : 0 < qty)
    (hpos : ∀ o ∈ (if side = Side.BUY then book.asks else book.bids), 0 < o.qty) :
    ((book.placeMarket fromId side qty t).1.1 = 0 ↔
      (if side = Side.BUY then book.asks else book.bids) = []) ∧
    (book.placeMarket fromId side qty t).1.1 =
      (((book.placeMarket fromId side qty t).1.2).map (fun e => e.qty)).sum ∧
    ((book.placeMarket fromId side qty t).1.1 = 0 →
      rejectSendsTo (ExchangeAgent.receive exId exSymbol book t
          ⟨fromId, toId, MsgType.MARKET_ORDER, Body.market side qty, atNs⟩).2 fromId =
        [Body.rejected "No liquidity" MsgType.MARKET_ORDER]) ∧
    ((book.placeMarket fromId side qty t).1.1 ≠ 0 →
      rejectSendsTo (ExchangeAgent.receive exId exSymbol book t
          ⟨fromId, toId, MsgType.MARKET_ORDER, Body.market side qty, atNs⟩).2 fromId = []) := by
  have hrej := market_handler_rejects exId exSymbol book t fromId toId atNs side qty hq
  cases side with
  | BUY =>
    have hpos' : ∀ o ∈ book.asks, 0 < o.qty := by simpa using hpos
    have hf := market_sweep_facts book.asks qty book.last hq hpos'
    have hge := sweepLoop_remain_le (book.asks.length + 2) book.asks qty book.last
      (fun o ho => le_of_lt (hpos' o ho))
    have hpm1 : (book.placeMarket fromId Side.BUY qty t).1.1 =
        qty - (sweepLoop (book.asks.length + 2) book.asks qty book.last).remain := by
      simp [OrderBook.placeMarket]
    have hpm2 : (book.placeMarket fromId Side.BUY qty t).1.2 =
        (sweepLoop (book.asks.length + 2) book.asks qty book.last).execs := by
      simp [OrderBook.placeMarket]
    refine ⟨?_, ?_, ?_, ?_⟩
    · rw [hpm1]; simpa using hf.1
    · rw [hpm1, hpm2]; exact hf.2
    · intro h; rw [hrej, if_neg (by omega)]
    · intro h
      rw [hpm1] at h
      rw [hrej, if_pos (by rw [hpm1]; omega)]
  | SELL =>
    have hpos' : ∀ o ∈ book.bids, 0 < o.qty := by simpa using hpos
    have hf := market_sweep_facts book.bids qty book.last hq hpos'
    have hge := sweepLoop_remain_le (book.bids.length + 2) book.bids qty book.last
      (fun o ho => le_of_lt (hpos' o ho))
    have hpm1 : (book.placeMarket fromId Side.SELL qty t).1.1 =
        qty - (sweepLoop (book.bids.length + 2) book.bids qty book.last).remain := by
      simp [OrderBook.placeMarket]
    have hpm2 : (book.placeMarket fromId Side.SELL qty t).1.2 =
        (sweepLoop (book.bids.length + 2) book.bids qty book.last).execs := by
      simp [OrderBook.placeMarket]
    refine ⟨?_, ?_, ?_, ?_⟩
    · rw [hpm1]; simpa using hf.1
    · rw [hpm1, hpm2]; exact hf.2
    · intro h; rw [hrej, if_neg (by omega)]
    · intro h
      rw [hpm1] at h
      rw [hrej, if_pos (by rw [hpm1]; omega)]

/-- Witness: the C9 theorem at a concrete book with liquidity and at an
empty book. -/
theorem market_no_liquidity_reject_witness :
    ((modBook.placeMarket 9 Side.BUY 2 7).1.1 = 0 ↔ modBook.asks = []) ∧
    (modBook.placeMarket 9 Side.BUY 2 7).1.1 =
      (((modBook.placeMarket 9 Side.BUY 2 7).1.2).map (fun e => e.qty)).sum := by
  have h := market_no_liquidity_reject 9 "S" modBook 7 3 9 0 Side.BUY 2 (by decide)
    (by decide)
  exact ⟨by simpa using h.1, h.2.1⟩

/-- Prepending a point-to-point send leaves the broadcast list unchanged. -/
theorem broadcastsOf_cons_send (r : Int) (ty : MsgType) (b : Body) (l : List Action) :
    broadcastsOf (Action.sendTo r ty b :: l) = broadcastsOf l := rfl

/-- Prepending a bus emission leaves the broadcast list unchanged. -/
theorem broadcastsOf_cons_emit (ev : BusEvent) (l : List Action) :
    broadcastsOf (Action.emitBus ev :: l) = broadcastsOf l := rfl

/-- A MARKET_DATA broadcast contributes its body. -/
theorem broadcastsOf_publish_md (b : Body) (l : List Action) :
    broadcastsOf (Action.publishAll MsgType.MARKET_DATA b :: l) = b :: broadcastsOf l := rfl

/-- Function `broadcastsOf` distributes over append. -/
theorem broadcastsOf_append (l1 l2 : List Action) :
    broadcastsOf (l1 ++ l2) = broadcastsOf l1 ++ broadcastsOf l2 :=
  List.filterMap_append _ _ _

/-- The empty action list broadcasts nothing. -/
theorem broadcastsOf_nil : broadcastsOf [] = [] := rfl

/-- The per-execution segments of the LIMIT branch broadcast nothing. -/
theorem broadcastsOf_limitExec (exSymbol : String) (t : Int) (o : LimitOrder)
    (l : List Exec) : broadcastsOf (l.flatMap (limitExecActions exSymbol t o)) = [] :=
  filterMap_flatMap_nil _ _ l (fun _ => rfl)

/-- The per-execution segments of the MARKET branch broadcast nothing. -/
theorem broadcastsOf_marketExec (exSymbol : String) (t : Int) (takerId : Int)
    (side : Side) (l : List MExec) :
    broadcastsOf (l.flatMap (marketExecActions exSymbol t takerId side)) = [] :=
  filterMap_flatMap_nil _ _ l (fun _ => rfl)

/-- C5: the kernel's `broadcast` schedules exactly one message per agent
other than the exchange, stamped with the same `at` that a unicast `send`
from the exchange to that recipient would stamp (the compute delay never
applies to exchange-originated sends); and the exchange handler, on every
successful mutation — limit accept/execute, market execute (also on the
no-liquidity path, which is harmless to the claim), cancel, modify —
broadcasts exactly one MARKET_DATA message carrying the depth-10 snapshot
of the mutated book. -/
theorem broadcast_after_mutation :
    (∀ (agents : List Int) (exchangeId : Int) (lat : Option TwoStageRpcLatency)
      (now : Int) (type : MsgType) (body : Body) (extra : Int),
      Kernel.broadcastMsgs agents exchangeId lat now type body extra =
        (agents.filter (fun a => a ≠ exchangeId)).map (fun toId =>
          Kernel.mkSendMsg lat exchangeId now exchangeId toId type body extra)) ∧
    (∀ (exId : Int) (exSymbol : String) (book : OrderBook) (t fromId toId atNs : Int)
      (o : LimitOrder), o.symbol = exSymbol → 0 < o.qty → 0 < o.price →
      broadcastsOf (ExchangeAgent.receive exId exSymbol book t
          ⟨fromId, toId, MsgType.LIMIT_ORDER, Body.limit o, atNs⟩).2 =
        [Body.marketData exSymbol (((book.placeLimit o).2).snapshot 10)]) ∧
    (∀ (exId : Int) (exSymbol : String) (book : OrderBook) (t fromId toId atNs : Int)
      (side : Side) (qty : Int), 0 < qty →
      broadcastsOf (ExchangeAgent.receive exId exSymbol book t
          ⟨fromId, toId, MsgType.MARKET_ORDER, Body.market side qty, atNs⟩).2 =
        [Body.marketData exSymbol (((book.placeMarket fromId side qty t).2).snapshot 10)]) ∧
    (∀ (exId : Int) (exSymbol : String) (book : OrderBook) (t fromId toId atNs : Int)
      (id : String) (res : Side × Int × Int), id ≠ "" →
      (book.cancel id).1 = some res →
      broadcastsOf (ExchangeAgent.receive exId exSymbol book t
          ⟨fromId, toId, MsgType.CANCEL_ORDER, Body.cancelRef id, atNs⟩).2 =
        [Body.marketData exSymbol (((book.cancel id).2).snapshot 10)]) ∧
    (∀ (exId : Int) (exSymbol : String) (book : OrderBook) (t fromId toId atNs : Int)
      (id : String) (price qty : Option Int), id ≠ "" →
      (∀ p, price = some p → 0 < p) → (∀ q, qty = some q → 0 ≤ q) →
      (book.modify id ⟨price, qty⟩ t).1 = true →
      broadcastsOf (ExchangeAgent.receive exId exSymbol book t
          ⟨fromId, toId, MsgType.MODIFY_ORDER, Body.modifyRef id price qty, atNs⟩).2 =
        [Body.marketData exSymbol (((book.modify id ⟨price, qty⟩ t).2.2).snapshot 10)]) := by
  refine ⟨?_, ?_, ?_, ?_, ?_⟩
  · intro agents exchangeId lat now type body extra
    unfold Kernel.broadcastMsgs
    congr 1
    funext toId
    simp [Kernel.mkSendMsg, Kernel.sendAt]
  · intro exId exSymbol book t fromId toId atNs o hsym hq hp
    have h1 : ¬ o.symbol ≠ exSymbol := by simp [hsym]
    have h2 : ¬ (o.qty ≤ 0 ∨ o.price ≤ 0) := by omega
    simp only [ExchangeAgent.receive, if_neg h1, if_neg h2]
    rw [broadcastsOf_cons_send, broadcastsOf_append, broadcastsOf_limitExec]
    rfl
  · intro exId exSymbol book t fromId toId atNs side qty hq
    have h2 : ¬ qty ≤ 0 := by omega
    simp only [ExchangeAgent.receive, if_neg h2]
    rw [broadcastsOf_append]
    by_cases hf : 0 < (book.placeMarket fromId side qty t).1.1
    · rw [if_pos hf, broadcastsOf_marketExec]
      rfl
    · rw [if_neg hf, broadcastsOf_cons_send, broadcastsOf_nil]
      rfl
  · intro exId exSymbol book t fromId toId atNs id res hid hres
    have hpair : book.cancel id = (some res, (book.cancel id).2) := by
      rw [← hres]
    simp only [ExchangeAgent.receive, if_neg hid]
    rw [hpair]
    simp [broadcastsOf_cons_send, broadcastsOf_cons_emit, broadcastsOf_publish_md,
      broadcastsOf_nil]
  · intro exId exSymbol book t fromId toId atNs id price qty hid hp hq hok
    have hpr : ¬ (price.any (fun p => decide (p ≤ 0)) = true) := by
      cases price with
      | none => simp
      | some p =>
        have := hp p rfl
        simp
        omega
    have hqr : ¬ (qty.any (fun q => decide (q < 0)) = true) := by
      cases qty with
      | none => simp
      | some q =>
        have := hq q rfl
        simp
        omega
    simp only [ExchangeAgent.receive, if_neg hid, if_neg hpr, if_neg hqr, if_pos hok]
    rfl

/-- Witness: C5 at concrete inputs (a two-agent broadcast and a limit
mutation). -/
theorem broadcast_after_mutation_witness :
    Kernel.broadcastMsgs [1, 2] 1 (some rpcLat) 0 MsgType.MARKET_DATA Body.nilB 0 =
      ([1, 2].filter (fun a => a ≠ 1)).map (fun toId =>
        Kernel.mkSendMsg (some rpcLat) 1 0 1 toId MsgType.MARKET_DATA Body.nilB 0) ∧
    broadcastsOf (ExchangeAgent.receive 9 "S" restingBidBook 5 sellCrossMsg).2 =
      [Body.marketData "S" (((restingBidBook.placeLimit sellCross).2).snapshot 10)] :=
  ⟨broadcast_after_mutation.1 [1, 2] 1 (some rpcLat) 0 MsgType.MARKET_DATA Body.nilB 0,
   broadcast_after_mutation.2.1 9 "S" restingBidBook 5 2 9 0 sellCross rfl (by decide)
     (by decide)⟩

/-- One TRADE emission per LIMIT execution segment. -/
theorem countTradeEmits_limit_seg (exSymbol : String) (t : Int) (o : LimitOrder)
    (e : Exec) : ((limitExecActions exSymbol t o e).filter isTradeEmit).length = 1 := rfl

/-- Two EXECUTED sends per LIMIT execution segment. -/
theorem countExecSends_limit_seg (exSymbol : String) (t : Int) (o : LimitOrder)
    (e : Exec) : ((limitExecActions exSymbol t o e).filter isExecSend).length = 2 := rfl

/-- One TRADE emission per MARKET execution segment. -/
theorem countTradeEmits_market_seg (exSymbol : String) (t : Int) (takerId : Int)
    (side : Side) (e : MExec) :
    ((marketExecActions exSymbol t takerId side e).filter isTradeEmit).length = 1 := rfl

/-- Two EXECUTED sends per MARKET execution segment. -/
theorem countExecSends_market_seg (exSymbol : String) (t : Int) (takerId : Int)
    (side : Side) (e : MExec) :
    ((marketExecActions exSymbol t takerId side e).filter isExecSend).length = 2 := rfl

/-- Filter-count over a `flatMap` with a constant per-segment count. -/
theorem count_filter_flatMap {γ : Type} (p : Action → Bool) (f : γ → List Action)
    (k : Nat) (hseg : ∀ e, ((f e).filter p).length = k) :
    ∀ l : List γ, ((l.flatMap f).filter p).length = k * l.length
  | [] => by simp
  | x :: xs => by
    rw [List.flatMap_cons, List.filter_append, List.length_append, hseg x,
      count_filter_flatMap p f k hseg xs, List.length_cons, Nat.mul_succ]
    omega

/-- C6 as amended: the handler's action sequence for a valid limit order is
the ACCEPTED send, then — per execution, in order — the TAKER EXECUTED
send, the MAKER EXECUTED send and the TRADE emission, then the market-data
broadcast; likewise for a market order with a positive fill (without the
ACCEPTED send).  Hence every match produces exactly one TRADE bus event and
exactly two ORDER_EXECUTED sends, with the TRADE emitted immediately after
the two EXECUTED sends of its match — after them, not between them; and
the MAKER send goes to the agent recorded as maker in the execution (for
SELL limit crossings that is the aggressor itself, per the counterexample). -/
theorem trade_emit_after_executed_sends :
    (∀ (exId : Int) (exSymbol : String) (book : OrderBook) (t fromId toId atNs : Int)
      (o : LimitOrder), o.symbol = exSymbol → 0 < o.qty → 0 < o.price →
      (ExchangeAgent.receive exId exSymbol book t
          ⟨fromId, toId, MsgType.LIMIT_ORDER, Body.limit o, atNs⟩).2 =
        Action.sendTo fromId MsgType.ORDER_ACCEPTED
          (Body.accepted o.id (some o.symbol) (some o.side) (some o.price) (some o.qty) false)
        :: ((book.placeLimit o).1.flatMap (limitExecActions exSymbol t o)
          ++ [Action.publishAll MsgType.MARKET_DATA
                (Body.marketData exSymbol (((book.placeLimit o).2).snapshot 10))]) ∧
      countTradeEmits (ExchangeAgent.receive exId exSymbol book t
          ⟨fromId, toId, MsgType.LIMIT_ORDER, Body.limit o, atNs⟩).2 =
        (book.placeLimit o).1.length ∧
      countExecSends (ExchangeAgent.receive exId exSymbol book t
          ⟨fromId, toId, MsgType.LIMIT_ORDER, Body.limit o, atNs⟩).2 =
        2 * (book.placeLimit o).1.length) ∧
    (∀ (exId : Int) (exSymbol : String) (book : OrderBook) (t fromId toId atNs : Int)
      (side : Side) (qty : Int), 0 < qty →
      0 < (book.placeMarket fromId side qty t).1.1 →
      (ExchangeAgent.receive exId exSymbol book t
          ⟨fromId, toId, MsgType.MARKET_ORDER, Body.market side qty, atNs⟩).2 =
        (book.placeMarket fromId side qty t).1.2.flatMap
            (marketExecActions exSymbol t fromId side)
          ++ [Action.publishAll MsgType.MARKET_DATA
                (Body.marketData exSymbol
                  (((book.placeMarket fromId side qty t).2).snapshot 10))] ∧
      countTradeEmits (ExchangeAgent.receive exId exSymbol book t
          ⟨fromId, toId, MsgType.MARKET_ORDER, Body.market side qty, atNs⟩).2 =
        (book.placeMarket fromId side qty t).1.2.length ∧
      countExecSends (ExchangeAgent.receive exId exSymbol book t
          ⟨fromId, toId, MsgType.MARKET_ORDER, Body.market side qty, atNs⟩).2 =
        2 * (book.placeMarket fromId side qty t).1.2.length) := by
  constructor
  · intro exId exSymbol book t fromId toId atNs o hsym hq hp
    have h1 : ¬ o.symbol ≠ exSymbol := by simp [hsym]
    have h2 : ¬ (o.qty ≤ 0 ∨ o.price ≤ 0) := by omega
    have hacts : (ExchangeAgent.receive exId exSymbol book t
        ⟨fromId, toId, MsgType.LIMIT_ORDER, Body.limit o, atNs⟩).2 =
        Action.sendTo fromId MsgType.ORDER_ACCEPTED
          (Body.accepted o.id (some o.symbol) (some o.side) (some o.price) (some o.qty) false)
        :: ((book.placeLimit o).1.flatMap (limitExecActions exSymbol t o)
          ++ [Action.publishAll MsgType.MARKET_DATA
                (Body.marketData exSymbol (((book.placeLimit o).2).snapshot 10))]) := by
      simp only [ExchangeAgent.receive, if_neg h1, if_neg h2]
    refine ⟨hacts, ?_, ?_⟩
    · rw [hacts]
      unfold countTradeEmits
      rw [show ∀ l : List Action, (Action.sendTo fromId MsgType.ORDER_ACCEPTED
          (Body.accepted o.id (some o.symbol) (some o.side) (some o.price) (some o.qty) false)
          :: l).filter isTradeEmit = l.filter isTradeEmit from fun l => rfl,
        List.filter_append, List.length_append,
        count_filter_flatMap isTradeEmit (limitExecActions exSymbol t o) 1
          (countTradeEmits_limit_seg exSymbol t o) (book.placeLimit o).1]
      simp [isTradeEmit]
    · rw [hacts]
      unfold countExecSends
      rw [show ∀ l : List Action, (Action.sendTo fromId MsgType.ORDER_ACCEPTED
          (Body.accepted o.id (some o.symbol) (some o.side) (some o.price) (some o.qty) false)
          :: l).filter isExecSend = l.filter isExecSend from fun l => rfl,
        List.filter_append, List.length_append,
        count_filter_flatMap isExecSend (limitExecActions exSymbol t o) 2
          (countExecSends_limit_seg exSymbol t o) (book.placeLimit o).1]
      simp [isExecSend, Nat.mul_comm]
  · intro exId exSymbol book t fromId toId atNs side qty hq hf
    have h2 : ¬ qty ≤ 0 := by omega
    have hacts : (ExchangeAgent.receive exId exSymbol book t
        ⟨fromId, toId, MsgType.MARKET_ORDER, Body.market side qty, atNs⟩).2 =
        (book.placeMarket fromId side qty t).1.2.flatMap
            (marketExecActions exSymbol t fromId side)
          ++ [Action.publishAll MsgType.MARKET_DATA
                (Body.marketData exSymbol
                  (((book.placeMarket fromId side qty t).2).snapshot 10))] := by
      simp only [ExchangeAgent.receive, if_neg h2, if_pos hf]
    refine ⟨hacts, ?_, ?_⟩
    · rw [hacts]
      unfold countTradeEmits
      rw [List.filter_append, List.length_append,
        count_filter_flatMap isTradeEmit (marketExecActions exSymbol t fromId side) 1
          (countTradeEmits_market_seg exSymbol t fromId side)
          (book.placeMarket fromId side qty t).1.2]
      simp [isTradeEmit]
    · rw [hacts]
      unfold countExecSends
      rw [List.filter_append, List.length_append,
        count_filter_flatMap isExecSend (marketExecActions exSymbol t fromId side) 2
          (countExecSends_market_seg exSymbol t fromId side)
          (book.placeMarket fromId side qty t).1.2]
      simp [isExecSend, Nat.mul_comm]

/-- Witness: the amended C6 theorem at the SELL-limit crossing scenario. -/
theorem trade_emit_after_executed_sends_witness :
    countTradeEmits sellCrossActs = (restingBidBook.placeLimit sellCross).1.length ∧
    countExecSends sellCrossActs = 2 * (restingBidBook.placeLimit sellCross).1.length :=
  ⟨(trade_emit_after_executed_sends.1 9 "S" restingBidBook 5 2 9 0 sellCross rfl
      (by decide) (by decide)).2.1,
   (trade_emit_after_executed_sends.1 9 "S" restingBidBook 5 2 9 0 sellCross rfl
      (by decide) (by decide)).2.2⟩

/-- Function `modifyInList` patches exactly the first order found by `find?`. -/
theorem modifyInList_found (orderId : String) (patch : Patch) (nowTs : Int) :
    ∀ (l : List LimitOrder) (o : LimitOrder),
      l.find? (fun x => x.id = orderId) = some o →
      ∃ l', modifyInList orderId patch nowTs l = some (applyPatch o patch nowTs, l')
  | [], o, h => absurd h (by simp)
  | x :: rest, o, h => by
    by_cases hx : x.id = orderId
    · have hxo : x = o := by
        rw [List.find?_cons_of_pos _ (by simpa using hx)] at h
        exact Option.some.inj h
      subst hxo
      cases happ : applyPatch x patch nowTs with
      | none =>
        refine ⟨rest, ?_⟩
        simp [modifyInList, hx, happ]
      | some o' =>
        refine ⟨o' :: rest, ?_⟩
        simp [modifyInList, hx, happ]
    · have h' : rest.find? (fun x => x.id = orderId) = some o := by
        rw [List.find?_cons_of_neg _ (by simpa using hx)] at h
        exact h
      obtain ⟨l', hl⟩ := modifyInList_found orderId patch nowTs rest o h'
      refine ⟨x :: l', ?_⟩
      simp [modifyInList, hx, hl]

/-- Function `modifyInList` fails exactly where `find?` fails. -/
theorem modifyInList_not_found (orderId : String) (patch : Patch) (nowTs : Int) :
    ∀ l : List LimitOrder, l.find? (fun x => x.id = orderId) = none →
      modifyInList orderId patch nowTs l = none
  | [] => fun _ => rfl
  | x :: rest => fun h => by
    have hx : ¬ x.id = orderId := by
      intro hc
      rw [List.find?_cons_of_pos _ (by simpa using hc)] at h
      exact Option.noConfusion h
    have h' : rest.find? (fun x => x.id = orderId) = none := by
      rw [List.find?_cons_of_neg _ (by simpa using hx)] at h
      exact h
    simp [modifyInList, hx, modifyInList_not_found orderId patch nowTs rest h']

/-- Function `applyPatch` with a price patch (and a positive or absent qty patch):
the order survives, takes the new price and qty, and keeps its `ts` iff the
patched price equals the current price. -/
theorem applyPatch_price (o : LimitOrder) (p : Int) (qopt : Option Int) (nowTs : Int)
    (hq : ∀ q, qopt = some q → 0 < q) :
    applyPatch o ⟨some p, qopt⟩ nowTs =
      some { o with price := p,
                    qty := (match qopt with | some q => q | none => o.qty),
                    ts := if p = o.price then o.ts else nowTs } := by
  cases qopt with
  | none =>
    by_cases hp : p = o.price
    · simp [applyPatch, hp]
    · simp [applyPatch, hp]
  | some q =>
    have hq' : 0 < q := hq q rfl
    have hmax : max 0 q = q := by omega
    have h0 : ¬ max 0 q = 0 := by omega
    by_cases hp : p = o.price
    · simp [applyPatch, hp, hmax, h0]
      omega
    · simp [applyPatch, hp, hmax, h0]
      omega

/-- C7: modifying a resident order with a price patch (and a positive or
absent qty patch) succeeds and returns the order with the new price and
qty, whose priority timestamp `ts` is reset to `nowTs` iff the patched
price differs from the current price, and is preserved iff it is equal. -/
theorem modify_price_change_resets_ts (b : OrderBook) (orderId : String) (p : Int)
    (qopt : Option Int) (nowTs : Int) (o : LimitOrder)
    (hfind : b.findOrder orderId = some o)
    (hq : ∀ q, qopt = some q → 0 < q) :
    ∃ b', b.modify orderId ⟨some p, qopt⟩ nowTs =
      (true, some { o with price := p,
                           qty := (match qopt with | some q => q | none => o.qty),
                           ts := if p = o.price then o.ts else nowTs }, b') := by
  unfold OrderBook.findOrder at hfind
  unfold OrderBook.modify
  cases hb : b.bids.find? (fun x => x.id = orderId) with
  | some ob =>
    rw [hb] at hfind
    have hobo : ob = o := Option.some.inj hfind
    subst hobo
    obtain ⟨l', hl⟩ := modifyInList_found orderId ⟨some p, qopt⟩ nowTs b.bids ob hb
    rw [hl, applyPatch_price ob p qopt nowTs hq]
    exact ⟨_, rfl⟩
  | none =>
    rw [hb] at hfind
    have hnb := modifyInList_not_found orderId ⟨some p, qopt⟩ nowTs b.bids
      (by simpa using hb)
    rw [hnb]
    obtain ⟨l', hl⟩ := modifyInList_found orderId ⟨some p, qopt⟩ nowTs b.asks o hfind
    rw [hl, applyPatch_price o p qopt nowTs hq]
    exact ⟨_, rfl⟩

/-- Witness: C7 at spec scenario 4 — `modify(b1, {price:500, qty:7}, 9)`
keeps `ts = 1`; `modify(b1, {price:501}, 9)` resets `ts` to 9. -/
theorem modify_price_change_resets_ts_witness :
    (∃ b', modBook4.modify "b1" ⟨some 500, some 7⟩ 9 =
        (true, some (⟨"b1", 7, "S", Side.BUY, 500, 7, 1⟩ : LimitOrder), b')) ∧
    (∃ b', modBook4.modify "b1" ⟨some 501, none⟩ 9 =
        (true, some (⟨"b1", 7, "S", Side.BUY, 501, 10, 9⟩ : LimitOrder), b')) := by
  constructor
  · obtain ⟨b', hb⟩ := modify_price_change_resets_ts modBook4 "b1" 500 (some 7) 9
      ⟨"b1", 7, "S", Side.BUY, 500, 10, 1⟩ (by decide)
      (fun q hq => by cases hq; decide)
    exact ⟨b', hb⟩
  · obtain ⟨b', hb⟩ := modify_price_change_resets_ts modBook4 "b1" 501 none 9
      ⟨"b1", 7, "S", Side.BUY, 500, 10, 1⟩ (by decide)
      (fun q hq => Option.noConfusion hq)
    exact ⟨b', hb⟩

/-- C1: the time-priority queue is specified to pop messages of equal `at`
in insertion order (stable FIFO).  The heap refutes this: pushing `wk1`,
`wk2`, `wk3` with equal `at` pops them as `wk1`, `wk3`, `wk2` — the
third-pushed message overtakes the second, because `pop` moves the last
array slot to the root and the strict comparisons never reorder ties. -/
theorem pq_pop_breaks_fifo :
    fifoQueue.drainAll 3 = [wk1, wk3, wk2] ∧
    wk1.atNs = wk2.atNs ∧ wk2.atNs = wk3.atNs ∧
    ([wk1, wk3, wk2] : List Message) ≠ [wk1, wk2, wk3] := by
  decide

/-- C4 counterexample: with up 200 ms / compute 300 ms / down 200 ms,
no jitter and tickMs 200, the LIMIT_ORDER issued at virtual time 0 reaches
the exchange's receive handler at virtual time 600 ms (not 500 ms), and the
ORDER_ACCEPTED reply arrives back at the agent at 800 ms (not 700 ms):
delivery happens only when a tick advances the clock past the stamped `at`,
and the reply is stamped from the tick-quantized handler time. -/
theorem latency_roundtrip_counterexample :
    simEnd.exchangeLog = [(600000000, MsgType.LIMIT_ORDER)] ∧
    (600000000 : Int) ≠ 500000000 ∧
    simEnd.agentLog.map (fun p => (p.1, p.2.type, p.2.atNs)) =
      [(800000000, MsgType.ORDER_ACCEPTED, 800000000),
       (800000000, MsgType.MARKET_DATA, 800000000)] ∧
    (800000000 : Int) ≠ 700000000 := by
  decide

/-- C4 as amended: the LIMIT_ORDER is stamped
`at = now + network + compute + extra = 500 ms` exactly as specified, but the
tick loop delivers it when the clock reaches 600 ms, so the exchange handler
runs at virtual time 600 ms and the ORDER_ACCEPTED reply (stamped
600 + 200 ms downlink = 800 ms) arrives at the agent at 800 ms. -/
theorem latency_roundtrip_tick_quantized :
    simSent.q.peek.map (fun m => m.atNs) = some 500000000 ∧
    Kernel.sendAt (some rpcLat) 1 0 2 1 0 = 500000000 ∧
    simEnd.exchangeLog = [(600000000, MsgType.LIMIT_ORDER)] ∧
    simEnd.agentLog.map (fun p => (p.1, p.2.type, p.2.atNs)) =
      [(800000000, MsgType.ORDER_ACCEPTED, 800000000),
       (800000000, MsgType.MARKET_DATA, 800000000)] := by
  decide

/-- C2 counterexample: from a side-ordered (but crossed) book — reachable,
since `modify` can cross the book — a valid market order returns with the
book still crossed: `placeMarket` sweeps the opposite side and never runs
the match loop, so it cannot restore the no-crossing invariant. -/
theorem placeMarket_crossed_book_counterexample :
    chainB bidOrdOk crossedBook.bids = true ∧
    chainB askOrdOk crossedBook.asks = true ∧
    (0 : Int) < 2 ∧
    ((crossedBook.placeMarket 9 Side.BUY 2 7).2).uncrossed = false := by
  decide

/-- C6 counterexample: a SELL limit crossing a resting bid produces exactly
one match, but the handler's TRADE bus emission comes after both
ORDER_EXECUTED sends (not strictly between them), and neither EXECUTED
message reaches the resting maker (agent 1): the match loop records
`maker = ask.agent`, which for a SELL aggressor is the aggressor itself, so
agent 2 receives both the TAKER and the MAKER message. -/
theorem trade_emit_counterexample :
    countTradeEmits sellCrossActs = 1 ∧
    countExecSends sellCrossActs = 2 ∧
    tradeBetweenExecs sellCrossActs = false ∧
    countExecSendsTo sellCrossActs 1 = 0 ∧
    countExecSendsTo sellCrossActs 2 = 2 := by
  decide

/-- A `modify` whose patch is `{qty: 0}` removes exactly the first order
carrying the id, mirroring `cancel`'s `findIndex` + `splice`. -/
theorem modifyInList_qty_zero (orderId : String) (nowTs : Int) :
    ∀ l : List LimitOrder,
      modifyInList orderId ⟨none, some 0⟩ nowTs l =
        (removeFirst orderId l).map (fun p => ((none : Option LimitOrder), p.2))
  | [] => rfl
  | o :: rest => by
    by_cases h : o.id = orderId
    · simp [modifyInList, removeFirst, h, applyPatch]
    · have ih := modifyInList_qty_zero orderId nowTs rest
      simp only [modifyInList, removeFirst, h, if_neg]
      rw [ih]
      cases removeFirst orderId rest with
      | none => rfl
      | some p => rfl

/-- C8: `modify(id, {qty: 0})` leaves the book (both sides and `last`) in
exactly the state `cancel(id)` produces, for every book state and id
(including unknown ids, where both are no-ops). -/
theorem modify_qty_zero_eq_cancel (b : OrderBook) (orderId : String) (nowTs : Int) :
    (b.modify orderId ⟨none, some 0⟩ nowTs).2.2 = (b.cancel orderId).2 := by
  unfold OrderBook.modify OrderBook.cancel
  rw [modifyInList_qty_zero, modifyInList_qty_zero]
  cases removeFirst orderId b.bids with
  | some p => simp
  | none =>
    simp only [Option.map_none']
    cases removeFirst orderId b.asks with
    | some p => simp
    | none => simp

/-- C10: `modify` never produces executions — it leaves `last` untouched on
every input, so no trade is recorded — and a price-raising modify can leave
the book crossed (best bid ≥ best ask); the crossed state survives a
subsequent `placeMarket` and is resolved only by the next `placeLimit`,
which runs the match loop (yielding a non-empty execution list here). -/
theorem modify_never_matches :
    (∀ (b : OrderBook) (orderId : String) (patch : Patch) (nowTs : Int),
      ((b.modify orderId patch nowTs).2.2).last = b.last) ∧
    (modBook.uncrossed = true ∧
     modBookCrossed.uncrossed = false ∧
     ((modBookCrossed.placeMarket 5 Side.BUY 1 9).2).uncrossed = false ∧
     ((modBookCrossed.placeLimit modBookSell).2).uncrossed = true ∧
     (modBookCrossed.placeLimit modBookSell).1 ≠ []) := by
  constructor
  · intro b orderId patch nowTs
    unfold OrderBook.modify
    cases hb : modifyInList orderId patch nowTs b.bids with
    | some p =>
      cases p with
      | mk r l =>
        cases r with
        | none => rfl
        | some o' => simp [OrderBook.sortBooks]
    | none =>
      cases ha : modifyInList orderId patch nowTs b.asks with
      | some p =>
        cases p with
        | mk r l =>
          cases r with
          | none => rfl
          | some o' => simp [OrderBook.sortBooks]
      | none => rfl
  · decide

end SimEx

